import Mathlib

/-!
Verification of the news fact-check / credibility pipeline of `bot.py`.

The Python source works on `str` values and `float` arithmetic.  The embedding
models strings as `String` / `List Char` (Python `len` counts code points, as
does `String.length`), machine floats as exact rationals `ℚ` (every float
literal of the source is a short decimal, modelled by the same decimal in `ℚ`),
and the one transcendental operation (`math.exp` inside the logistic squash)
as `Real.exp`.  Truncating conversions such as `int(x * 0.60)` on
small non-negative values are modelled by exact integer division, which agrees
with the IEEE evaluation for all magnitudes occurring here.  Python `round`
(banker's rounding) is modelled by an explicit round-half-to-even on `ℚ`.
-/

set_option linter.unusedVariables false

namespace Bot

/-! ## Python string primitives

`str.strip`/`str.split()` treat the ASCII whitespace characters used by the
inputs of this program; `str.lower` is modelled on the ASCII range (the Persian
script has no case).  -/

def pyWsChar (c : Char) : Bool :=
  c = ' ' ∨ c = '\t' ∨ c = '\n' ∨ c = '\r' ∨ c = Char.ofNat 11 ∨ c = Char.ofNat 12

def pyStripList (l : List Char) : List Char :=
  ((l.dropWhile pyWsChar).reverse.dropWhile pyWsChar).reverse

def pyLowerChar (c : Char) : Char :=
  if 65 ≤ c.toNat ∧ c.toNat ≤ 90 then Char.ofNat (c.toNat + 32) else c

def pyLowerList (l : List Char) : List Char := l.map pyLowerChar

/-- `str.split()` with no separator: split on runs of whitespace, no empty parts. -/
def pySplitWsGo (cur : List Char) : List Char → List (List Char)
  | [] => if cur = [] then [] else [cur.reverse]
  | c :: rest =>
      if pyWsChar c then
        if cur = [] then pySplitWsGo [] rest else cur.reverse :: pySplitWsGo [] rest
      else pySplitWsGo (c :: cur) rest

def pySplitWs (l : List Char) : List (List Char) := pySplitWsGo [] l

def joinSep (sep : List Char) : List (List Char) → List Char
  | [] => []
  | [w] => w
  | w :: rest => w ++ sep ++ joinSep sep rest

/-- `" ".join(text.split())`: collapse whitespace runs to single spaces. -/
def collapseWs (l : List Char) : List Char := joinSep [' '] (pySplitWs l)

def prefixB : List Char → List Char → Bool
  | [], _ => true
  | _ :: _, [] => false
  | p :: ps, c :: cs => p = c ∧ prefixB ps cs

/-- Python `needle in hay` on strings (`"" in s` is `True`). -/
def substrB (needle : List Char) : List Char → Bool
  | [] => prefixB needle []
  | c :: rest => prefixB needle (c :: rest) ∨ substrB needle rest

/-- Python `str.replace(old, new)`: leftmost, non-overlapping, all occurrences.
Only called with non-empty `old` in this code base. -/
def replaceList (old new : List Char) : List Char → List Char
  | [] => []
  | c :: rest =>
      if h : old ≠ [] ∧ prefixB old (c :: rest) then
        new ++ replaceList old new ((c :: rest).drop old.length)
      else
        c :: replaceList old new rest
termination_by l => l.length
decreasing_by
  · simp only [List.length_drop]
    have hlen : 1 ≤ old.length := by
      cases old with
      | nil => exact absurd rfl h.1
      | cons x xs => simp
    simp only [List.length_cons]
    omega
  · simp

def pyStripChars (bad : List Char) (l : List Char) : List Char :=
  (((l.dropWhile fun c => c ∈ bad).reverse.dropWhile fun c => c ∈ bad)).reverse

def pyRstripChars (bad : List Char) (l : List Char) : List Char :=
  ((l.reverse.dropWhile fun c => c ∈ bad)).reverse

/-- Python `cut.rfind(ch)` for one-character needles: highest index, `-1` if absent. -/
def pyRfindChar (l : List Char) (ch : Char) : ℤ :=
  (l.foldl (fun (st : ℤ × ℤ) c =>
    (st.1 + 1, if c = ch then st.1 else st.2)) (0, -1)).2

/-- A scanning model of `html.unescape` restricted to the five standard
entities; all strings reaching it in the verified paths are entity-free. -/
def unescapeHtml : List Char → List Char
  | [] => []
  | c :: rest =>
      if h : c = '&' then
        if h2 : prefixB "amp;".data rest then '&' :: unescapeHtml (rest.drop 4)
        else if h3 : prefixB "lt;".data rest then '<' :: unescapeHtml (rest.drop 3)
        else if h4 : prefixB "gt;".data rest then '>' :: unescapeHtml (rest.drop 3)
        else if h5 : prefixB "quot;".data rest then '"' :: unescapeHtml (rest.drop 5)
        else if h6 : prefixB "#39;".data rest then Char.ofNat 39 :: unescapeHtml (rest.drop 4)
        else c :: unescapeHtml rest
      else c :: unescapeHtml rest
termination_by l => l.length
decreasing_by all_goals (simp [List.length_drop]; try omega)

/-- Python `round` on a rational scaled value: round half to even. -/
def pyRound (x : ℚ) : ℤ :=
  let f : ℤ := ⌊x⌋
  let r : ℚ := x - f
  if r < 1/2 then f
  else if 1/2 < r then f + 1
  else if f % 2 = 0 then f else f + 1

/-- Python `round(x, 2)`. -/
def pyRound2 (x : ℚ) : ℚ := (pyRound (x * 100) : ℚ) / 100

/-- Python `str` slicing `s[:n]`. -/
def pyTake (n : ℕ) (s : String) : String := ⟨s.data.take n⟩

/-! ## Text normalisation (`normalize_text`, `compact_text`, `normalize_fa_text`,
`_tokenize_fact_text` of `bot.py`) -/

/-- `normalize_text`: `(text or "").strip().lower()`. -/
def normalizeText (s : String) : String := ⟨pyLowerList (pyStripList s.data)⟩

/-- `compact_text`: zero-width joiner and underscore become spaces, whitespace
collapsed. -/
def compactText (s : String) : String :=
  ⟨collapseWs ((normalizeText s).data.map fun c =>
      if c = Char.ofNat 0x200C ∨ c = '_' then ' ' else c)⟩

def faPunctChar (c : Char) : Bool :=
  c = '.' ∨ c = '!' ∨ c = '?' ∨ c = '؟' ∨ c = '،' ∨ c = ',' ∨ c = ':' ∨ c = ';' ∨
  c = '؛' ∨ c = Char.ofNat 34 ∨ c = Char.ofNat 39 ∨ c = '(' ∨ c = ')' ∨ c = '[' ∨ c = ']'

/-- `normalize_fa_text`: Arabic letter variants mapped to Persian canonical
forms, a fixed punctuation set replaced by spaces, whitespace collapsed. -/
def normalizeFaText (s : String) : String :=
  ⟨collapseWs ((compactText s).data.map fun c =>
      let c := if c = Char.ofNat 0x064A then Char.ofNat 0x06CC
               else if c = Char.ofNat 0x0643 then Char.ofNat 0x06A9 else c
      if faPunctChar c then ' ' else c)⟩

def factTokenChar (c : Char) : Bool :=
  (48 ≤ c.toNat ∧ c.toNat ≤ 57) ∨ (65 ≤ c.toNat ∧ c.toNat ≤ 90) ∨
  (97 ≤ c.toNat ∧ c.toNat ≤ 122) ∨ (0x0600 ≤ c.toNat ∧ c.toNat ≤ 0x06FF)

def tokenRunsGo (cur : List Char) : List Char → List (List Char)
  | [] => if cur = [] then [] else [cur.reverse]
  | c :: rest =>
      if factTokenChar c then tokenRunsGo (c :: cur) rest
      else if cur = [] then tokenRunsGo [] rest else cur.reverse :: tokenRunsGo [] rest

/-- `_tokenize_fact_text`: maximal runs of `[A-Za-z0-9؀-ۿ]` of length
at least 2 in the `normalize_fa_text` form. -/
def tokenizeFactText (s : String) : List String :=
  ((tokenRunsGo [] (normalizeFaText s).data).filter fun r => 2 ≤ r.length).map
    fun r => (⟨r⟩ : String)

/-! ## `difflib.SequenceMatcher` (stdlib dependency of `_text_similarity`)

`SequenceMatcher(None, a, b).ratio()` is `2*M/(len(a)+len(b))` where `M` is
the total size of the matching blocks.  `__chain_b` indexes `b` in `b2j`;
with the default `autojunk=True` and `isjunk=None` (as `_text_similarity`
calls it), elements occurring more than `len(b)//100 + 1` times are purged
from `b2j` when `len(b) >= 200` (the `bpopular` set), while the junk set
`bjunk` stays empty.  `find_longest_match` computes, over the current window,
the longest common-suffix chain `L(i, j)` under the purged index, keeps the
first (in scan order: `i` ascending, then `j` ascending) pair attaining the
maximum, and then extends the match on both ends over plain character
equality — the non-junk extension loops test only `bjunk`, so purged popular
elements do take part in the extension.  The final junk-extension loops run
only on `bjunk` elements and are therefore no-ops here. -/

/-- The `autojunk` popular-element set of `SequenceMatcher.__chain_b`: with
`isjunk=None` and `autojunk=True` (the defaults used by `_text_similarity`),
an element of `b` is purged from the match index `b2j` when `len(b) >= 200`
and it occurs more than `len(b)//100 + 1` times. -/
def bPopular (b : List Char) (c : Char) : Bool :=
  decide (200 ≤ b.length) && decide (b.length / 100 + 1 < b.count c)

/-- Plain positional character equality (`a[i] == b[j]`), used by the
extension loops of `find_longest_match`, which consult only the junk set
`bjunk` (empty here, since `isjunk` is `None`) and not `bpopular`. -/
def eqRaw (a b : List Char) (i j : ℕ) : Bool :=
  match a[i]?, b[j]? with
  | some x, some y => x = y
  | _, _ => false

/-- Positional match as seen by the `b2j` index of the inner dynamic
programme: the characters are equal and `b[j]` was not purged as popular. -/
def eqAt (a b : List Char) (i j : ℕ) : Bool :=
  match a[i]?, b[j]? with
  | some x, some y => x = y && !(bPopular b y)
  | _, _ => false

/-- Length of the common-suffix chain of `a`/`b` ending at `(i, j)` (under the
`b2j` match relation), clipped to the window starting at `(alo, blo)`. -/
def suffLen (a b : List Char) (alo blo : ℕ) : ℕ → ℕ → ℕ
  | 0, j => if eqAt a b 0 j then 1 else 0
  | i + 1, j =>
      if eqAt a b (i + 1) j then
        (if alo < i + 1 ∧ blo < j then suffLen a b alo blo i (j - 1) else 0) + 1
      else 0

/-- Window index pairs in scan order: `i` ascending, then `j` ascending. -/
def windowPairs (alo ahi blo bhi : ℕ) : List (ℕ × ℕ) :=
  (List.range' alo (ahi - alo)).flatMap fun i =>
    (List.range' blo (bhi - blo)).map fun j => (i, j)

def bestChainSize (a b : List Char) (alo ahi blo bhi : ℕ) : ℕ :=
  ((windowPairs alo ahi blo bhi).map fun p => suffLen a b alo blo p.1 p.2).foldl max 0

/-- The left extension loop of `find_longest_match` (`while besti > alo and
bestj > blo and not isbjunk(b[bestj-1]) and a[besti-1] == b[bestj-1]`); the
`isbjunk` test is constant `False` because `bjunk` is empty under
`isjunk=None`.  The fuel bounds the iteration count (`besti` decreases). -/
def extLeft (a b : List Char) (alo blo : ℕ) : ℕ → ℕ × ℕ × ℕ → ℕ × ℕ × ℕ
  | 0, st => st
  | fuel + 1, (besti, bestj, bestsize) =>
      if alo < besti ∧ blo < bestj ∧ eqRaw a b (besti - 1) (bestj - 1) then
        extLeft a b alo blo fuel (besti - 1, bestj - 1, bestsize + 1)
      else (besti, bestj, bestsize)

/-- The right extension loop of `find_longest_match`; as with `extLeft` the
junk test is constant `False`. -/
def extRight (a b : List Char) (ahi bhi : ℕ) : ℕ → ℕ × ℕ × ℕ → ℕ × ℕ × ℕ
  | 0, st => st
  | fuel + 1, (besti, bestj, bestsize) =>
      if besti + bestsize < ahi ∧ bestj + bestsize < bhi ∧
          eqRaw a b (besti + bestsize) (bestj + bestsize) then
        extRight a b ahi bhi fuel (besti, bestj, bestsize + 1)
      else (besti, bestj, bestsize)

/-- `SequenceMatcher.find_longest_match` on the window `a[alo:ahi]`,
`b[blo:bhi]`: the dynamic programme over the purged index `b2j` keeps the
first (in scan order) pair attaining the maximal chain, and the result is
then extended on both ends over plain character equality.  The two final
junk-extension loops of the CPython source are omitted: they run only on
elements of `bjunk`, which is empty under `isjunk=None`. -/
def findLongestMatch (a b : List Char) (alo ahi blo bhi : ℕ) : ℕ × ℕ × ℕ :=
  let k := bestChainSize a b alo ahi blo bhi
  let base :=
    if k = 0 then (alo, blo, 0)
    else
      match (windowPairs alo ahi blo bhi).find? fun p =>
          suffLen a b alo blo p.1 p.2 = k with
      | some (i, j) => (i + 1 - k, j + 1 - k, k)
      | none => (alo, blo, 0)
  extRight a b ahi bhi ahi (extLeft a b alo blo base.1 base)

/-- Total size of the matching blocks (the recursion of
`get_matching_blocks`); `fuel` dominates the recursion depth, which is bounded
by the total window size. -/
def totalMatchSize (a b : List Char) : ℕ → ℕ → ℕ → ℕ → ℕ → ℕ
  | 0, _, _, _, _ => 0
  | fuel + 1, alo, ahi, blo, bhi =>
      let t := findLongestMatch a b alo ahi blo bhi
      if t.2.2 = 0 then 0
      else
        totalMatchSize a b fuel alo t.1 blo t.2.1 + t.2.2 +
          totalMatchSize a b fuel (t.1 + t.2.2) ahi (t.2.1 + t.2.2) bhi

/-- `SequenceMatcher(None, a, b).ratio()` as an exact rational. -/
def seqRatioApprox (a b : List Char) : ℚ :=
  if a.length + b.length = 0 then 1
  else
    (2 * (totalMatchSize a b (a.length + b.length + 1) 0 a.length 0 b.length) : ℚ) /
      (a.length + b.length)

/-! ## `_text_similarity` -/

def simTokenSet (s : String) : Finset String := (tokenizeFactText s).toFinset

def containScore (l r : List Char) : ℚ :=
  if substrB l r ∨ substrB r l then 1 else 0

/-- `_text_similarity`: blend of sequence ratio, token-set Jaccard index and
binary containment, on the `normalize_fa_text` forms; `0.0` when either side
normalises to the empty string; bare ratio when either token set is empty. -/
def textSimilarity (a b : String) : ℚ :=
  let left := normalizeFaText a
  let right := normalizeFaText b
  if left = "" ∨ right = "" then 0
  else
    let r := seqRatioApprox left.data right.data
    let ls := simTokenSet left
    let rs := simTokenSet right
    if ls = ∅ ∨ rs = ∅ then r
    else
      let inter : ℚ := ((ls ∩ rs).card : ℚ)
      let union : ℚ := ((ls ∪ rs).card : ℚ)
      let jac : ℚ := if union = 0 then 0 else inter / union
      52/100 * r + 38/100 * jac + 10/100 * containScore left.data right.data

/-! ## Lemmas about the sequence matcher on identical inputs -/

theorem prefixB_self (l : List Char) : prefixB l l = true := by
  induction l with
  | nil => rfl
  | cons c rest ih => simp [prefixB, ih]

theorem substrB_self (l : List Char) : substrB l l = true := by
  cases l with
  | nil => rfl
  | cons c rest => simp [substrB, prefixB_self]

theorem eqRaw_self_diag (s : List Char) (i : ℕ) (h : i < s.length) :
    eqRaw s s i i = true := by
  have hg : s[i]? = some s[i] := List.getElem?_eq_getElem h
  simp [eqRaw, hg]

theorem eqAt_self_of {s : List Char} {i j : ℕ} (h : eqAt s s i j = true) :
    eqAt s s i i = true ∧ eqAt s s j j = true := by
  unfold eqAt at h ⊢
  cases hgi : s[i]? with
  | none => rw [hgi] at h; simp at h
  | some x =>
      cases hgj : s[j]? with
      | none => rw [hgi, hgj] at h; simp at h
      | some y =>
          rw [hgi, hgj] at h
          simp only [Bool.and_eq_true, decide_eq_true_eq, Bool.not_eq_true'] at h
          obtain ⟨hxy, hpop⟩ := h
          subst hxy
          constructor <;> simp [hgi, hgj, hpop]

theorem suffLen_le_fst (a b : List Char) (alo blo : ℕ) :
    ∀ i j, suffLen a b alo blo i j ≤ i + 1 := by
  intro i
  induction i with
  | zero =>
      intro j
      simp only [suffLen]
      split <;> simp
  | succ i ih =>
      intro j
      simp only [suffLen]
      split
      · split
        · have := ih (j - 1)
          omega
        · omega
      · omega

theorem suffLen_le_snd (a b : List Char) (alo blo : ℕ) :
    ∀ i j, suffLen a b alo blo i j ≤ j + 1 := by
  intro i
  induction i with
  | zero =>
      intro j
      simp only [suffLen]
      split <;> simp
  | succ i ih =>
      intro j
      simp only [suffLen]
      split
      · split
        · rename_i hw
          have hj : 1 ≤ j := by omega
          have := ih (j - 1)
          omega
        · omega
      · omega

theorem one_le_suffLen_diag {s : List Char} {j : ℕ} (h : eqAt s s j j = true) :
    1 ≤ suffLen s s 0 0 j j := by
  cases j with
  | zero => simp [suffLen, h]
  | succ d => simp [suffLen, h]

/-- On a self-comparison the diagonal chain dominates every chain in its row
and in its column: a common-suffix chain ending at `(i, j)` forces the same
characters (all unpurged) to sit at the tails ending at `i` and at `j`. -/
theorem suffLen_diag_ge (s : List Char) :
    ∀ i j, suffLen s s 0 0 i j ≤ suffLen s s 0 0 i i ∧
      suffLen s s 0 0 i j ≤ suffLen s s 0 0 j j := by
  intro i
  induction i with
  | zero =>
      intro j
      cases heq : eqAt s s 0 j with
      | false => constructor <;> simp [suffLen, heq]
      | true =>
          have h1 := (eqAt_self_of heq).1
          have h2 := (eqAt_self_of heq).2
          constructor
          · simp [suffLen, heq, h1]
          · have := one_le_suffLen_diag h2
            simp only [suffLen, heq, if_pos]
            omega
  | succ i ih =>
      intro j
      cases heq : eqAt s s (i + 1) j with
      | false => constructor <;> simp [suffLen, heq]
      | true =>
          have h1 := (eqAt_self_of heq).1
          have h2 := (eqAt_self_of heq).2
          cases j with
          | zero =>
              constructor
              · have := one_le_suffLen_diag h1
                simp only [suffLen, heq, if_true]
                rw [if_neg (by omega)]
                simp only [suffLen, h1, if_true]
                omega
              · simp only [suffLen, heq, if_true, h2]
                rw [if_neg (by omega)]
          | succ d =>
              have hid := ih d
              constructor
              · simp only [suffLen, heq, h1, if_true]
                rw [if_pos ⟨by omega, by omega⟩, if_pos ⟨by omega, by omega⟩]
                simp only [Nat.add_sub_cancel]
                omega
              · simp only [suffLen, heq, h2, if_true]
                rw [if_pos ⟨by omega, by omega⟩, if_pos ⟨by omega, by omega⟩]
                simp only [Nat.add_sub_cancel]
                omega

theorem mem_windowPairs {alo ahi blo bhi i j : ℕ} :
    (i, j) ∈ windowPairs alo ahi blo bhi ↔
      (alo ≤ i ∧ i < ahi) ∧ (blo ≤ j ∧ j < bhi) := by
  simp only [windowPairs, List.mem_flatMap, List.mem_map, List.mem_range', Prod.mk.injEq]
  constructor
  · rintro ⟨x, ⟨k, hk, rfl⟩, y, ⟨m, hm, rfl⟩, rfl, rfl⟩
    refine ⟨⟨by omega, by omega⟩, by omega, by omega⟩
  · rintro ⟨⟨h1, h2⟩, ⟨h3, h4⟩⟩
    exact ⟨i, ⟨i - alo, by omega, by omega⟩, j, ⟨j - blo, by omega, by omega⟩, rfl, rfl⟩

theorem le_foldl_max (l : List ℕ) (a : ℕ) : a ≤ l.foldl max a := by
  induction l generalizing a with
  | nil => simp
  | cons x rest ih => exact le_trans (Nat.le_max_left a x) (ih (max a x))

theorem mem_le_foldl_max {x : ℕ} {l : List ℕ} (hx : x ∈ l) (a : ℕ) :
    x ≤ l.foldl max a := by
  induction l generalizing a with
  | nil => cases hx
  | cons y rest ih =>
      rcases List.mem_cons.mp hx with rfl | hx2
      · exact le_trans (Nat.le_max_right a x) (le_foldl_max rest _)
      · exact ih hx2 _

theorem foldl_max_le {l : List ℕ} {m a : ℕ} (ha : a ≤ m) (h : ∀ x ∈ l, x ≤ m) :
    l.foldl max a ≤ m := by
  induction l generalizing a with
  | nil => simpa
  | cons x rest ih =>
      exact ih (max_le ha (h x (List.mem_cons_self x rest))) fun y hy =>
        h y (List.mem_cons_of_mem x hy)

theorem foldl_max_attained :
    ∀ (l : List ℕ) (a : ℕ), l.foldl max a = a ∨ l.foldl max a ∈ l := by
  intro l
  induction l with
  | nil => intro a; left; rfl
  | cons x rest ih =>
      intro a
      rw [List.foldl_cons]
      rcases ih (max a x) with h | h
      · rw [h]
        rcases max_choice a x with h2 | h2
        · left; exact h2
        · right; rw [h2]; exact List.mem_cons_self x rest
      · right; exact List.mem_cons_of_mem x h

/-- The scan order of `windowPairs`. -/
def scanLt (p q : ℕ × ℕ) : Prop := p.1 < q.1 ∨ (p.1 = q.1 ∧ p.2 < q.2)

theorem pairwise_lt_range'_one (n : ℕ) : ∀ s, (List.range' s n).Pairwise (· < ·) := by
  induction n with
  | zero => intro s; simp
  | succ m ih =>
      intro s
      rw [List.range'_succ]
      refine List.pairwise_cons.mpr ⟨?_, ih (s + 1)⟩
      intro y hy
      obtain ⟨t, ht, rfl⟩ := List.mem_range'.mp hy
      omega

theorem windowPairs_pairwise (blo bhi : ℕ) :
    ∀ (acnt alo : ℕ), (((List.range' alo acnt).flatMap fun i =>
      (List.range' blo (bhi - blo)).map fun j => (i, j)) : List (ℕ × ℕ)).Pairwise scanLt := by
  intro acnt
  induction acnt with
  | zero => intro alo; simp
  | succ m ih =>
      intro alo
      rw [List.range'_succ, List.flatMap_cons]
      rw [List.pairwise_append]
      refine ⟨?_, ih (alo + 1), ?_⟩
      · rw [List.pairwise_map]
        refine List.Pairwise.imp ?_ (pairwise_lt_range'_one (bhi - blo) blo)
        intro x y hxy
        exact Or.inr ⟨rfl, hxy⟩
      · intro x hx y hy
        rcases List.mem_map.mp hx with ⟨jx, hjx, rfl⟩
        rcases List.mem_flatMap.mp hy with ⟨iy, hiy, hy2⟩
        rcases List.mem_map.mp hy2 with ⟨jy, hjy, rfl⟩
        obtain ⟨t, ht, rfl⟩ := List.mem_range'.mp hiy
        exact Or.inl (by omega)

theorem windowPairs_pairwise_scan (alo ahi blo bhi : ℕ) :
    (windowPairs alo ahi blo bhi).Pairwise scanLt :=
  windowPairs_pairwise blo bhi (ahi - alo) alo

theorem find?_split {α : Type} {p : α → Bool} {x : α} :
    ∀ {l : List α}, l.find? p = some x →
      ∃ l1 l2, l = l1 ++ x :: l2 ∧ ∀ y ∈ l1, p y = false := by
  intro l
  induction l with
  | nil => intro h; cases h
  | cons y rest ih =>
      intro h
      cases hpy : p y with
      | true =>
          rw [List.find?_cons_of_pos _ hpy] at h
          obtain rfl : y = x := by injection h
          exact ⟨[], rest, rfl, by intro z hz; cases hz⟩
      | false =>
          rw [List.find?_cons_of_neg _ (by simp [hpy])] at h
          obtain ⟨l1, l2, rfl, hall⟩ := ih h
          refine ⟨y :: l1, l2, rfl, ?_⟩
          intro z hz
          rcases List.mem_cons.mp hz with rfl | hz2
          · exact hpy
          · exact hall z hz2

theorem extLeft_diag (s : List Char) :
    ∀ (fuel bi sz : ℕ), bi ≤ fuel → bi + sz ≤ s.length →
      extLeft s s 0 0 fuel (bi, bi, sz) = (0, 0, bi + sz) := by
  intro fuel
  induction fuel with
  | zero =>
      intro bi sz hf hn
      obtain rfl : bi = 0 := Nat.le_zero.mp hf
      simp [extLeft]
  | succ f ih =>
      intro bi sz hf hn
      cases bi with
      | zero =>
          simp only [extLeft]
          rw [if_neg (by simp)]
          simp
      | succ d =>
          simp only [extLeft]
          rw [if_pos ⟨Nat.succ_pos d, Nat.succ_pos d, by
            simpa using eqRaw_self_diag s d (by omega)⟩]
          simp only [Nat.add_sub_cancel]
          rw [ih d (sz + 1) (by omega) (by omega)]
          have : d + (sz + 1) = d + 1 + sz := by omega
          rw [this]

theorem extLeft_stuck (a b : List Char) (alo blo sz bj : ℕ) :
    ∀ fuel, extLeft a b alo blo fuel (alo, bj, sz) = (alo, bj, sz) := by
  intro fuel
  cases fuel with
  | zero => rfl
  | succ f =>
      simp only [extLeft]
      rw [if_neg (by simp)]

theorem extRight_diag (s : List Char) :
    ∀ (fuel sz : ℕ), s.length ≤ sz + fuel → sz ≤ s.length →
      extRight s s s.length s.length fuel (0, 0, sz) = (0, 0, s.length) := by
  intro fuel
  induction fuel with
  | zero =>
      intro sz h1 h2
      obtain rfl : sz = s.length := by omega
      rfl
  | succ f ih =>
      intro sz h1 h2
      by_cases hlt : sz < s.length
      · simp only [extRight]
        rw [if_pos ⟨by omega, by omega, by
          simpa using eqRaw_self_diag s sz hlt⟩]
        exact ih (sz + 1) (by omega) (by omega)
      · obtain rfl : sz = s.length := by omega
        simp only [extRight]
        rw [if_neg (by simp)]

theorem extRight_stuck (a b : List Char) (ahi bhi : ℕ) (bi bj sz : ℕ)
    (h : ¬ bi + sz < ahi) : ∀ fuel, extRight a b ahi bhi fuel (bi, bj, sz) = (bi, bj, sz) := by
  intro fuel
  cases fuel with
  | zero => rfl
  | succ f =>
      simp only [extRight]
      rw [if_neg (by simp [h])]

theorem windowPairs_degenerate (alo blo : ℕ) :
    windowPairs alo alo blo blo = [] := by
  simp [windowPairs]

theorem findLongestMatch_degenerate (a b : List Char) (alo blo : ℕ) :
    findLongestMatch a b alo alo blo blo = (alo, blo, 0) := by
  simp only [findLongestMatch, bestChainSize, windowPairs_degenerate,
    List.map_nil, List.foldl_nil, if_pos]
  rw [extLeft_stuck]
  exact extRight_stuck a b alo blo alo blo 0 (by omega) alo

theorem findLongestMatch_self (s : List Char) (hs : s ≠ []) :
    findLongestMatch s s 0 s.length 0 s.length = (0, 0, s.length) := by
  have hn : 0 < s.length := List.length_pos.mpr hs
  by_cases hk : bestChainSize s s 0 s.length 0 s.length = 0
  · simp only [findLongestMatch, hk, if_pos]
    rw [extLeft_stuck]
    exact extRight_diag s s.length 0 (by omega) (by omega)
  · have hmem : bestChainSize s s 0 s.length 0 s.length ∈
        (windowPairs 0 s.length 0 s.length).map fun p => suffLen s s 0 0 p.1 p.2 := by
      rcases foldl_max_attained
        ((windowPairs 0 s.length 0 s.length).map fun p => suffLen s s 0 0 p.1 p.2) 0 with
        h0 | hm
      · exact absurd h0 hk
      · exact hm
    set k := bestChainSize s s 0 s.length 0 s.length with hkdef
    have hsome : ((windowPairs 0 s.length 0 s.length).find? fun p =>
        suffLen s s 0 0 p.1 p.2 = k).isSome := by
      rcases List.mem_map.mp hmem with ⟨q, hq, hqk⟩
      exact List.find?_isSome.mpr ⟨q, hq, by simp [hqk]⟩
    obtain ⟨⟨i, j⟩, hfind⟩ := Option.isSome_iff_exists.mp hsome
    have hpij : suffLen s s 0 0 i j = k := by
      have := List.find?_some hfind
      simpa using this
    have hmemij := List.mem_of_find?_eq_some hfind
    have hw := mem_windowPairs.mp hmemij
    have hmax : ∀ q ∈ windowPairs 0 s.length 0 s.length,
        suffLen s s 0 0 q.1 q.2 ≤ k := by
      intro q hq
      have hm2 : suffLen s s 0 0 q.1 q.2 ∈
          (windowPairs 0 s.length 0 s.length).map fun p => suffLen s s 0 0 p.1 p.2 :=
        List.mem_map.mpr ⟨q, hq, rfl⟩
      exact mem_le_foldl_max hm2 0
    have hij : i = j := by
      by_contra hne
      obtain ⟨l1, l2, hsplitEq, hl1⟩ := find?_split hfind
      have hpw := windowPairs_pairwise_scan 0 s.length 0 s.length
      rw [hsplitEq] at hpw
      have hcross := List.pairwise_append.mp hpw
      have hl2 : ∀ y ∈ l2, scanLt (i, j) y := (List.pairwise_cons.mp hcross.2.1).1
      rcases Nat.lt_or_ge i j with hlt | hge
      · have hdk : suffLen s s 0 0 i i = k :=
          le_antisymm
            (hmax (i, i) (mem_windowPairs.mpr ⟨⟨Nat.zero_le _, hw.1.2⟩,
              ⟨Nat.zero_le _, hw.1.2⟩⟩))
            (hpij ▸ (suffLen_diag_ge s i j).1)
        have hmm : (i, i) ∈ l1 ++ (i, j) :: l2 := by
          rw [← hsplitEq]
          exact mem_windowPairs.mpr ⟨⟨Nat.zero_le _, hw.1.2⟩, ⟨Nat.zero_le _, hw.1.2⟩⟩
        rcases List.mem_append.mp hmm with h1 | h2
        · have := hl1 _ h1
          simp [hdk] at this
        · rcases List.mem_cons.mp h2 with heq2 | h3
          · exact hne (congrArg Prod.snd heq2)
          · have := hl2 _ h3
            rcases this with h | ⟨_, h⟩ <;> omega
      · have hlt2 : j < i := by omega
        have hdk : suffLen s s 0 0 j j = k :=
          le_antisymm
            (hmax (j, j) (mem_windowPairs.mpr ⟨⟨Nat.zero_le _, hw.2.2⟩,
              ⟨Nat.zero_le _, hw.2.2⟩⟩))
            (hpij ▸ (suffLen_diag_ge s i j).2)
        have hmm : (j, j) ∈ l1 ++ (i, j) :: l2 := by
          rw [← hsplitEq]
          exact mem_windowPairs.mpr ⟨⟨Nat.zero_le _, hw.2.2⟩, ⟨Nat.zero_le _, hw.2.2⟩⟩
        rcases List.mem_append.mp hmm with h1 | h2
        · have := hl1 _ h1
          simp [hdk] at this
        · rcases List.mem_cons.mp h2 with heq2 | h3
          · exact hne ((congrArg Prod.fst heq2).symm)
          · have := hl2 _ h3
            rcases this with h | ⟨h, _⟩ <;> omega
    subst hij
    have hk_le : k ≤ i + 1 := hpij ▸ suffLen_le_fst s s 0 0 i i
    simp only [findLongestMatch, ← hkdef, if_neg hk, hfind]
    have hext := extLeft_diag s (i + 1 - k) (i + 1 - k) k (le_refl _) (by omega)
    rw [hext]
    have h1 : i + 1 - k + k = i + 1 := by omega
    rw [h1]
    exact extRight_diag s s.length (i + 1) (by omega) (by omega)

theorem totalMatchSize_degenerate (a b : List Char) (fuel alo blo : ℕ) :
    totalMatchSize a b fuel alo alo blo blo = 0 := by
  cases fuel with
  | zero => rfl
  | succ f =>
      simp only [totalMatchSize, findLongestMatch_degenerate]
      simp

theorem totalMatchSize_self (s : List Char) (hs : s ≠ []) :
    totalMatchSize s s (s.length + s.length + 1) 0 s.length 0 s.length = s.length := by
  have hn : 0 < s.length := List.length_pos.mpr hs
  have hflm := findLongestMatch_self s hs
  simp only [totalMatchSize, hflm]
  rw [if_neg (by omega)]
  simp [totalMatchSize_degenerate]

theorem seqRatioApprox_self (s : List Char) (hs : s ≠ []) :
    seqRatioApprox s s = 1 := by
  have hn : 0 < s.length := List.length_pos.mpr hs
  simp only [seqRatioApprox, totalMatchSize_self s hs]
  rw [if_neg (by omega)]
  have : ((s.length : ℚ) + s.length) ≠ 0 := by
    have : (0 : ℚ) < (s.length : ℚ) := by exact_mod_cast hn
    nlinarith
  field_simp
  ring

/-- The `autojunk` purge on a generic second string of 201 copies of a single
popular character, against the three-character first string `"xay"`:
the dynamic programme finds no chain at all, and since the strings disagree
at the start of the window, the extension loops never start either, so the
ratio is `0`. -/
theorem autojunk_demo_generic (B : List Char)
    (hlen : B.length = 201)
    (hget : ∀ j, j < 201 → B[j]? = some 'a')
    (hpop : bPopular B 'a' = true) :
    seqRatioApprox "xay".data B = 0 := by
  have heqat : ∀ i j, eqAt "xay".data B i j = false := by
    intro i j
    unfold eqAt
    by_cases hj : j < 201
    · rcases i with _ | _ | _ | i
      · rw [show ("xay".data)[0]? = some 'x' from rfl, hget j hj]
        simp
      · rw [show ("xay".data)[1]? = some 'a' from rfl, hget j hj]
        simp [hpop]
      · rw [show ("xay".data)[2]? = some 'y' from rfl, hget j hj]
        simp
      · rw [show ("xay".data)[i + 3]? = none from
          List.getElem?_eq_none (by rw [show ("xay".data).length = 3 from rfl]; omega)]
    · rw [show B[j]? = none from List.getElem?_eq_none (by rw [hlen]; omega)]
      cases ha : ("xay".data)[i]? <;> rfl
  have hsuff : ∀ i j, suffLen "xay".data B 0 0 i j = 0 := by
    intro i j
    cases i with
    | zero => simp [suffLen, heqat]
    | succ n => simp [suffLen, heqat]
  have hbest : bestChainSize "xay".data B 0 3 0 201 = 0 := by
    apply Nat.le_antisymm
    · apply foldl_max_le (le_refl 0)
      intro x hx
      rcases List.mem_map.mp hx with ⟨q, hq, rfl⟩
      rw [hsuff]
    · exact Nat.zero_le _
  have heraw : eqRaw "xay".data B 0 0 = false := by
    unfold eqRaw
    rw [show ("xay".data)[0]? = some 'x' from rfl, hget 0 (by omega)]
    simp
  have hflm : findLongestMatch "xay".data B 0 3 0 201 = (0, 0, 0) := by
    simp only [findLongestMatch, hbest, if_pos]
    have hl : extLeft "xay".data B 0 0
        ((0, 0, 0) : ℕ × ℕ × ℕ).1 ((0, 0, 0) : ℕ × ℕ × ℕ) = (0, 0, 0) := rfl
    rw [hl]
    rw [show (3:ℕ) = 2 + 1 from rfl]
    simp only [extRight]
    rw [if_neg (by simp [heraw])]
  have htotal : totalMatchSize "xay".data B 205 0 3 0 201 = 0 := by
    rw [show (205:ℕ) = 204 + 1 from rfl]
    rw [totalMatchSize]
    simp only [hflm]
    norm_num
  have hla : ("xay".data).length = 3 := rfl
  simp only [seqRatioApprox, hla, hlen]
  rw [if_neg (by omega)]
  rw [show (3:ℕ) + 201 + 1 = 205 from rfl, htotal]
  norm_num

set_option maxRecDepth 2000 in
theorem seqRatioApprox_autojunk_purge :
    seqRatioApprox "xay".data (List.replicate 201 (Char.ofNat 97)) = 0 ∧
      bPopular (List.replicate 201 (Char.ofNat 97)) (Char.ofNat 97) = true := by
  have hpop : bPopular (List.replicate 201 'a') 'a' = true := by
    unfold bPopular
    rw [List.length_replicate, List.count_replicate_self]
    decide
  refine ⟨autojunk_demo_generic _ ?_ ?_ hpop, hpop⟩
  · rw [List.length_replicate]
  · intro j hj
    rw [List.getElem?_replicate, if_pos hj]

theorem string_ne_empty_data {s : String} (h : s ≠ "") : s.data ≠ [] := by
  intro hnil
  apply h
  cases s with
  | mk l => cases hnil; rfl

theorem textSimilarity_self {a : String} (h : normalizeFaText a ≠ "") :
    textSimilarity a a = 1 := by
  have hd : (normalizeFaText a).data ≠ [] := string_ne_empty_data h
  have hr : seqRatioApprox (normalizeFaText a).data (normalizeFaText a).data = 1 :=
    seqRatioApprox_self _ hd
  simp only [textSimilarity]
  rw [if_neg (by simp [h])]
  by_cases he : simTokenSet (normalizeFaText a) = ∅
  · rw [if_pos (Or.inl he), hr]
  · rw [if_neg (by simp [he])]
    rw [hr, Finset.inter_self, Finset.union_self]
    have hc : (simTokenSet (normalizeFaText a)).card ≠ 0 := by
      simpa [Finset.card_eq_zero] using he
    have hcq : ((simTokenSet (normalizeFaText a)).card : ℚ) ≠ 0 := by exact_mod_cast hc
    rw [if_neg hcq, div_self hcq]
    simp only [containScore, substrB_self]
    norm_num

theorem textSimilarity_empty {a b : String}
    (h : normalizeFaText a = "" ∨ normalizeFaText b = "") :
    textSimilarity a b = 0 := by
  simp only [textSimilarity]
  rw [if_pos h]

/-! ## Claim C5 -/

/-- C5 (counterexample): `_text_similarity` is **not** symmetric.  On the
inputs `"tide"`/`"diet"` the `difflib` sequence ratio is order dependent
(`0.25` one way, `0.5` the other), so the blended similarity differs:
`0.13` versus `0.26`. -/
theorem fc_c5_counterexample :
    textSimilarity "tide" "diet" ≠ textSimilarity "diet" "tide" := by
  with_unfolding_all decide

/-- C5 (amended): `_text_similarity` is reflexive (`1.0` on any string that is
non-empty after normalisation), returns `0.0` whenever either input is empty
after normalisation, and its token-Jaccard and containment components are
symmetric — any asymmetry comes only from the `SequenceMatcher` ratio
component, which depends on argument order.  Reflexivity is unconditional
even though the embedded ratio models the `autojunk` purge: on a
self-comparison the first maximal chain of the inner dynamic programme lies
on the diagonal (`suffLen_diag_ge` plus the scan order), and the extension
loops — which consult only the empty `bjunk`, not `bpopular` — then grow the
match over the purged characters to the whole string, so the self-ratio is
`1` for strings of any length. -/
theorem fc_c5_amended (a b : String) :
    (normalizeFaText a ≠ "" → textSimilarity a a = 1) ∧
    ((normalizeFaText a = "" ∨ normalizeFaText b = "") → textSimilarity a b = 0) ∧
    containScore (normalizeFaText a).data (normalizeFaText b).data =
      containScore (normalizeFaText b).data (normalizeFaText a).data ∧
    (simTokenSet (normalizeFaText a) ∩ simTokenSet (normalizeFaText b)).card =
      (simTokenSet (normalizeFaText b) ∩ simTokenSet (normalizeFaText a)).card ∧
    (simTokenSet (normalizeFaText a) ∪ simTokenSet (normalizeFaText b)).card =
      (simTokenSet (normalizeFaText b) ∪ simTokenSet (normalizeFaText a)).card := by
  refine ⟨fun h => textSimilarity_self h, fun h => textSimilarity_empty h, ?_, ?_, ?_⟩
  · simp only [containScore]
    exact if_congr or_comm rfl rfl
  · rw [Finset.inter_comm]
  · rw [Finset.union_comm]

/-- C5 (witness for the amended theorem): reflexivity at `"ab cd"` and the
zero value at an input that normalises to the empty string. -/
theorem fc_c5_amended_witness :
    textSimilarity "ab cd" "ab cd" = 1 ∧ textSimilarity " " "xy" = 0 :=
  ⟨(fc_c5_amended "ab cd" "ab cd").1 (by decide),
   (fc_c5_amended " " "xy").2.1 (Or.inl (by decide))⟩

/-! ## Evidence items and the heuristic stance labeler
(`FACT_NEGATION_TERMS`, `_contains_negation`, `_heuristic_label`) -/

/-- One retrieved news item as the dictionaries flowing through
`_merge_news_items` / `_score_factcheck`.  Python falsy string fields are the
empty string; absent timestamps are `0`; an absent `relevance` key is
`none`. -/
structure NewsItem where
  source : String
  sourceTier : String
  title : String
  summary : String
  link : String
  normalizedTitle : String
  publishedTs : ℤ
  fetchedAt : ℤ
  relevance : Option ℚ
  deriving DecidableEq

def pyStripStr (s : String) : String := ⟨pyStripList s.data⟩

def factNegationTerms : List String :=
  ["تکذیب", "رد شد", "شایعه", "نادرست", "دروغ",
   "false", "fake", "hoax", "not true", "denied", "rumor"]

/-- `_contains_negation`: any fixed negation/retraction term occurs in the
`normalize_fa_text` form. -/
def containsNegB (text : String) : Bool :=
  factNegationTerms.any fun t => substrB t.data (normalizeFaText text).data

/-- `f"{title} {summary}".strip()` — the evidence text the labeler and the
scorer examine. -/
def combinedText (item : NewsItem) : String :=
  pyStripStr (item.title ++ " " ++ item.summary)

/-- Whether claim and evidence disagree on the presence of negation terms. -/
def negMismatch (claim : String) (item : NewsItem) : Bool :=
  containsNegB claim ≠ containsNegB (combinedText item)

/-- `_heuristic_label`: stance `(label, confidence, reason)` from relevance
thresholds and the negation-term mismatch test. -/
def heuristicLabel (claim : String) (item : NewsItem) (relevance : ℚ) :
    String × ℚ × String :=
  if relevance < 14/100 then ("irrelevant", 28/100, "ارتباط واژگانی کم")
  else if 50/100 ≤ relevance then
    if negMismatch claim item then ("refute", 56/100, "واژگان تکذیب/رد متفاوت است")
    else ("support", 58/100, "شباهت محتوایی بالا")
  else if 24/100 ≤ relevance then ("related", 50/100, "موضوع مشابه ولی تایید قطعی ندارد")
  else ("irrelevant", 33/100, "ارتباط مستقیم کافی نیست")

/-! ## Claim C3 -/

/-- C3 (counterexample): at relevance `0.22` — above every reading of the
claim's low floor (~0.14–0.20) and below the high threshold — the heuristic
labeler returns `"irrelevant"`, not `"related"`: the mid-range `"related"`
band only starts at `0.24`. -/
theorem fc_c3_counterexample :
    (heuristicLabel "x"
        ⟨"", "", "", "", "", "", 0, 0, none⟩ (22/100)).1 = "irrelevant" ∧
      (20/100 : ℚ) < 22/100 ∧ (22/100 : ℚ) < 50/100 := by
  refine ⟨?_, by norm_num, by norm_num⟩
  have h1 : ¬((22/100 : ℚ) < 14/100) := by norm_num
  have h2 : ¬((50/100 : ℚ) ≤ 22/100) := by norm_num
  have h3 : ¬((24/100 : ℚ) ≤ 22/100) := by norm_num
  simp [heuristicLabel, h1, h2, h3]

/-- C3 (amended): the labeler returns `"irrelevant"` for relevance below
`0.24` (in two bands, below `0.14` and `[0.14, 0.24)`), `"related"` exactly on
`[0.24, 0.50)`, and for relevance at least `0.50` it returns `"refute"` when
claim and evidence disagree on negation/retraction terms and `"support"`
otherwise. -/
theorem fc_c3_amended (claim : String) (item : NewsItem) (r : ℚ) :
    ((heuristicLabel claim item r).1 = "irrelevant" ↔ r < 24/100) ∧
    ((heuristicLabel claim item r).1 = "related" ↔ 24/100 ≤ r ∧ r < 50/100) ∧
    ((heuristicLabel claim item r).1 = "refute" ↔
      50/100 ≤ r ∧ negMismatch claim item = true) ∧
    ((heuristicLabel claim item r).1 = "support" ↔
      50/100 ≤ r ∧ negMismatch claim item = false) := by
  simp only [heuristicLabel]
  by_cases h1 : r < 14/100
  · rw [if_pos h1]
    refine ⟨⟨fun _ => by linarith, fun _ => rfl⟩, ?_, ?_, ?_⟩
    · exact ⟨fun h => absurd h (by decide), fun h => absurd h.1 (by linarith)⟩
    · exact ⟨fun h => absurd h (by decide), fun h => absurd h.1 (by linarith)⟩
    · exact ⟨fun h => absurd h (by decide), fun h => absurd h.1 (by linarith)⟩
  · rw [if_neg h1]
    by_cases h2 : 50/100 ≤ r
    · rw [if_pos h2]
      by_cases h3 : negMismatch claim item = true
      · rw [if_pos h3]
        refine ⟨?_, ?_, ?_, ?_⟩
        · exact ⟨fun h => absurd h (by decide), fun h => by linarith⟩
        · exact ⟨fun h => absurd h (by decide), fun h => by linarith [h.2]⟩
        · exact ⟨fun _ => ⟨h2, h3⟩, fun _ => rfl⟩
        · exact ⟨fun h => absurd h (by decide), fun h => by rw [h3] at h; cases h.2⟩
      · rw [if_neg h3]
        have h3f : negMismatch claim item = false := by
          rwa [Bool.not_eq_true] at h3
        refine ⟨?_, ?_, ?_, ?_⟩
        · exact ⟨fun h => absurd h (by decide), fun h => by linarith⟩
        · exact ⟨fun h => absurd h (by decide), fun h => by linarith [h.2]⟩
        · exact ⟨fun h => absurd h (by decide), fun h => by rw [h3f] at h; cases h.2⟩
        · exact ⟨fun _ => ⟨h2, h3f⟩, fun _ => rfl⟩
    · rw [if_neg h2]
      by_cases h4 : 24/100 ≤ r
      · rw [if_pos h4]
        refine ⟨?_, ?_, ?_, ?_⟩
        · exact ⟨fun h => absurd h (by decide), fun h => by linarith⟩
        · exact ⟨fun _ => ⟨h4, by linarith [not_le.mp h2]⟩, fun _ => rfl⟩
        · exact ⟨fun h => absurd h (by decide), fun h => absurd h.1 h2⟩
        · exact ⟨fun h => absurd h (by decide), fun h => absurd h.1 h2⟩
      · rw [if_neg h4]
        refine ⟨?_, ?_, ?_, ?_⟩
        · exact ⟨fun _ => by linarith [not_le.mp h4], fun _ => rfl⟩
        · exact ⟨fun h => absurd h (by decide), fun h => absurd h.1 h4⟩
        · exact ⟨fun h => absurd h (by decide), fun h => absurd h.1 h2⟩
        · exact ⟨fun h => absurd h (by decide), fun h => absurd h.1 h2⟩

/-! ## Source tiers (`SOURCE_TIER_NAME_HINTS`, `SOURCE_TIER_WEIGHTS`,
`_infer_source_tier`) -/

def sourceTierNameHints : List (String × String) :=
  [("reuters", "high"), ("associated press", "high"), ("ap news", "high"),
   ("bbc", "high"), ("axios", "high"), ("irna", "high"), ("isna", "high"),
   ("the guardian", "high"), ("nytimes", "high"), ("new york times", "high"),
   ("al jazeera", "high"), ("dw", "high"), ("npr", "high"), ("cnn", "medium"),
   ("tasnim", "medium"), ("fars", "medium"), ("mehr", "medium"),
   ("ilna", "medium"), ("khabar online", "medium"), ("hamshahri", "medium"),
   ("yjc", "medium"), ("tabnak", "medium"), ("asr iran", "medium")]

def tierKeys : List String := ["high", "medium", "low"]

def sourceTierWeight (tier : String) : ℚ :=
  if tier = "high" then 1 else if tier = "medium" then 78/100
  else if tier = "low" then 55/100 else 78/100

/-- `_infer_source_tier`: first name hint contained in the normalised source
name wins; otherwise the fallback if it is a valid tier, else `"medium"`. -/
def inferSourceTier (sourceName fallback : String) : String :=
  match sourceTierNameHints.find? fun h =>
      substrB h.1.data (normalizeText sourceName).data with
  | some h => h.2
  | none => if fallback ∈ tierKeys then fallback else "medium"

/-- `FACT_LABEL_WEIGHTS.get(label, 0.0)`. -/
def factLabelWeight (label : String) : ℚ :=
  if label = "support" then 1 else if label = "refute" then -1
  else if label = "related" then 15/100 else 0

def factLabelKeys : List String := ["support", "refute", "related", "irrelevant"]

/-! ## `_score_factcheck` -/

/-- One per-item stance coming back from the external AI labeler (already
parsed; `confidence` is whatever float the response carried). -/
structure AiLabel where
  label : String
  confidence : ℚ
  reason : String
  deriving DecidableEq

/-- One entry of the scorer's `evidence` output: the input item's fields plus
the scoring fields the Python dict merge `{**item, ...}` adds (the merged
`relevance` value lives in the `relevance` field here). -/
structure ScoredEvidence where
  item : NewsItem
  label : String
  labelConf : ℚ
  reason : String
  tier : String
  effect : ℚ
  relevance : ℚ
  freshness : ℚ
  deriving DecidableEq

def clamp01 (x : ℚ) : ℚ := max 0 (min 1 x)

/-- The per-item body of the scoring loop in `_score_factcheck`. -/
def scoreEvidenceRow (claim : String) (now : ℤ) (aiLabels : ℕ → Option AiLabel)
    (idx : ℕ) (item : NewsItem) : ScoredEvidence :=
  let relevance : ℚ :=
    match item.relevance with
    | some r => r
    | none => textSimilarity claim (combinedText item)
  let lcr : String × ℚ × String :=
    match aiLabels idx with
    | some ai =>
        let label := normalizeText ai.label
        if label ∈ factLabelKeys then (label, ai.confidence, pyTake 200 ai.reason)
        else heuristicLabel claim item relevance
    | none => heuristicLabel claim item relevance
  let tier := inferSourceTier item.source item.sourceTier
  let sourceWeight := sourceTierWeight tier
  let publishedTs : ℤ :=
    if item.publishedTs ≠ 0 then item.publishedTs
    else if item.fetchedAt ≠ 0 then item.fetchedAt else now
  let ageDays : ℚ := max 0 (((now - publishedTs : ℤ) : ℚ) / 86400)
  let freshness : ℚ := 1 / (1 + ageDays / 14)
  let unit : ℚ := sourceWeight * (35/100 + 65/100 * clamp01 lcr.2.1) *
    (30/100 + 70/100 * clamp01 relevance) * (55/100 + 45/100 * freshness)
  let effect : ℚ := factLabelWeight lcr.1 * unit
  ⟨item, lcr.1, lcr.2.1, lcr.2.2, tier, effect, relevance, freshness⟩

def scoreRows (claim : String) (now : ℤ) (aiLabels : ℕ → Option AiLabel)
    (items : List NewsItem) : List ScoredEvidence :=
  items.enum.map fun p => scoreEvidenceRow claim now aiLabels p.1 p.2

/-- Number of distinct non-empty normalised source names
(`len([s for s in seen_sources if s])`). -/
def sourceCountOf (items : List NewsItem) : ℕ :=
  (((items.map fun it => normalizeText it.source).toFinset).filter fun s => s ≠ "").card

def coverageOf (items : List NewsItem) : ℚ := min 1 ((sourceCountOf items : ℚ) / 6)

def netScoreOf (rows : List ScoredEvidence) : ℚ := (rows.map fun r => r.effect).sum

def totalStrengthOf (rows : List ScoredEvidence) : ℚ := (rows.map fun r => |r.effect|).sum

/-- The confidence aggregate of `_score_factcheck` (pure rational
arithmetic). -/
def scoreConfidence (items : List NewsItem) (rows : List ScoredEvidence) : ℚ :=
  let c : ℚ := 23/100 + min (43/100) (totalStrengthOf rows / max 1 (items.length : ℚ))
  let c := c + 20/100 * coverageOf items
  let c := c + 12/100 * min 1 ((items.length : ℚ) / 8)
  max (10/100) (min (97/100) c)

/-- `base_prob = sigmoid(2.7 * net_score)`. -/
noncomputable def baseProbOf (net : ℚ) : ℝ :=
  1 / (1 + Real.exp (-(27/10 * (net : ℝ))))

/-- `truth_prob = clamp(0.88*base_prob + 0.12*coverage, 0.03, 0.97)`. -/
noncomputable def truthProbOf (net coverage : ℚ) : ℝ :=
  max (3/100) (min (97/100) (88/100 * baseProbOf net + 12/100 * (coverage : ℝ)))

open scoped Classical in
/-- Verdict thresholding shared by `_score_factcheck` and
`_blend_fact_scores` (identical code in both). -/
noncomputable def verdictOf (truth : ℝ) (conf : ℚ) : String :=
  if 45/100 ≤ conf then
    if (65/100 : ℝ) ≤ truth then "احتمالاً واقعی"
    else if truth ≤ 35/100 then "احتمالاً فیک/گمراه‌کننده"
    else "نیازمند بررسی بیشتر"
  else "نامطمئن"

open scoped Classical in
/-- The `score_reason` / `score_why` cascade of `_score_factcheck`. -/
noncomputable def scoreReasonOf (sourceCount labelled : ℕ) (supportCount refuteCount : ℕ)
    (confidence : ℚ) (truth : ℝ) : String × String :=
  if sourceCount = 0 ∨ labelled = 0 then
    ("no_evidence", "سند مستقیم کافی پیدا نشد؛ نتیجه عددی خنثی/کم‌اطمینان است.")
  else if 0 < supportCount ∧ 0 < refuteCount then
    ("conflicting_evidence",
     "شواهد معتبر هم‌زمان موافق و مخالف وجود دارد؛ نتیجه نهایی با اطمینان پایین‌تر گزارش شد.")
  else if confidence < 35/100 then
    ("low_confidence", "تعداد یا کیفیت شواهد برای نتیجه قطعی کافی نبود.")
  else if |truth - 1/2| ≤ 8/100 then
    ("near_balanced", "وزن شواهد نزدیک به تعادل است و نتیجه قطعی به دست نیامده است.")
  else
    ("scored",
     "امتیاز بر اساس شواهد موافق/مخالف، اعتبار منبع، تازگی خبر و شباهت محتوایی محاسبه شد.")

/-- `ScoredResult` as returned by `_score_factcheck` /
`_blend_fact_scores`. -/
structure FactResult where
  verdict : String
  truthProb : ℝ
  fakeProb : ℝ
  confidence : ℚ
  evidence : List ScoredEvidence
  supportCount : ℕ
  refuteCount : ℕ
  relatedCount : ℕ
  sourceCount : ℕ
  scoreReason : String
  scoreWhy : String

/-- Descending stable order on `|effect|` used for the evidence ranking. -/
def effGE (x y : ScoredEvidence) : Prop := |y.effect| ≤ |x.effect|

instance : DecidableRel effGE := fun x y => inferInstanceAs (Decidable (_ ≤ _))

/-- `_score_factcheck`. -/
noncomputable def scoreFactcheck (claim : String) (items : List NewsItem)
    (aiLabels : ℕ → Option AiLabel) (now : ℤ) : FactResult :=
  if items = [] then
    { verdict := "نامطمئن", truthProb := 1/2, fakeProb := 1/2, confidence := 15/100,
      evidence := [], supportCount := 0, refuteCount := 0, relatedCount := 0,
      sourceCount := 0, scoreReason := "no_evidence",
      scoreWhy :=
        "هیچ سند خبری مرتبطی با آستانه شباهت لازم پیدا نشد؛ امتیاز به صورت خنثی 50/50 تنظیم شد." }
  else
    let rows := scoreRows claim now aiLabels items
    let supportCount := rows.countP fun r => r.label = "support"
    let refuteCount := rows.countP fun r => r.label = "refute"
    let relatedCount := rows.countP fun r => r.label = "related"
    let sourceCount := sourceCountOf items
    let coverage := coverageOf items
    let net := netScoreOf rows
    let confidence := scoreConfidence items rows
    let truth := truthProbOf net coverage
    let sorted := List.insertionSort effGE rows
    let reasonWhy :=
      scoreReasonOf sourceCount (supportCount + refuteCount + relatedCount)
        supportCount refuteCount confidence truth
    { verdict := verdictOf truth confidence, truthProb := truth, fakeProb := 1 - truth,
      confidence := confidence, evidence := sorted, supportCount := supportCount,
      refuteCount := refuteCount, relatedCount := relatedCount,
      sourceCount := sourceCount, scoreReason := reasonWhy.1, scoreWhy := reasonWhy.2 }

/-! ## `_blend_fact_scores` -/

/-- A parsed AI web verdict (already through
`_ai_factcheck_web_verdict`'s shaping); `none` models the empty dict. -/
structure AiWebVerdict where
  truthProb : ℚ
  confidence : ℚ
  why : String
  sources : List String
  deriving DecidableEq

/-- `_blend_fact_scores`: confidence-weighted blend of the internal result
with an AI web verdict; verdicts with fewer than two sources are ignored. -/
noncomputable def blendFactScores (internal : FactResult)
    (aiWeb : Option AiWebVerdict) : FactResult :=
  match aiWeb with
  | none => internal
  | some aw =>
      if aw.sources.length < 2 then internal
      else
        let blendWeight : ℚ := 22/100 + 28/100 * clamp01 aw.confidence
        let mergedTruth : ℝ :=
          max (2/100) (min (98/100)
            ((1 - (blendWeight : ℝ)) * internal.truthProb +
              (blendWeight : ℝ) * (aw.truthProb : ℝ)))
        let mergedConf : ℚ :=
          max (10/100) (min (98/100)
            (max internal.confidence (75/100 * internal.confidence + 25/100 * aw.confidence)))
        let baseWhy := pyStripStr internal.scoreWhy
        let aiWhy := pyStripStr aw.why
        { verdict := verdictOf mergedTruth mergedConf, truthProb := mergedTruth,
          fakeProb := 1 - mergedTruth, confidence := mergedConf,
          evidence := internal.evidence, supportCount := internal.supportCount,
          refuteCount := internal.refuteCount, relatedCount := internal.relatedCount,
          sourceCount := internal.sourceCount, scoreReason := "blended_with_ai_web",
          scoreWhy :=
            if aiWhy ≠ "" then
              if baseWhy ≠ "" then baseWhy ++ " | تحلیل وب‌محور AI: " ++ aiWhy
              else "تحلیل وب‌محور AI: " ++ aiWhy
            else internal.scoreWhy }

/-! ## Claim C6 -/

/-- C6: the empty evidence list yields the fixed neutral result: verdict
`"نامطمئن"` ("uncertain"), `truth_prob = fake_prob = 0.5`,
`confidence = 0.15`, empty evidence, zero counts, and the explicit reason
code `no_evidence` with its explanatory text. -/
theorem fc_c6_zero_evidence (claim : String) (aiLabels : ℕ → Option AiLabel) (now : ℤ) :
    scoreFactcheck claim [] aiLabels now =
      { verdict := "نامطمئن", truthProb := 1/2, fakeProb := 1/2, confidence := 15/100,
        evidence := [], supportCount := 0, refuteCount := 0, relatedCount := 0,
        sourceCount := 0, scoreReason := "no_evidence",
        scoreWhy :=
          "هیچ سند خبری مرتبطی با آستانه شباهت لازم پیدا نشد؛ امتیاز به صورت خنثی 50/50 تنظیم شد." } := by
  simp [scoreFactcheck]

/-! ## Claim C9 -/

theorem heuristicLabel_conf_bounds (claim : String) (item : NewsItem) (r : ℚ) :
    0 ≤ (heuristicLabel claim item r).2.1 ∧ (heuristicLabel claim item r).2.1 ≤ 1 := by
  simp only [heuristicLabel]
  split
  · norm_num
  · split
    · split
      · norm_num
      · norm_num
    · split
      · norm_num
      · norm_num

/-- C9 (counterexample): an externally supplied stance confidence of `2.0`
is propagated verbatim into the output `label_conf` field — it is clamped
only inside the unit-strength computation, not at the reported field. -/
theorem fc_c9_counterexample :
    ((scoreFactcheck "c" [⟨"Src", "high", "t", "", "l", "", 5, 5, some 1⟩]
        (fun i => if i = 0 then some ⟨"support", 2, "r"⟩ else none) 5).evidence.map
      fun e => e.labelConf) = [2] ∧ (1 : ℚ) < 2 := by
  constructor
  · with_unfolding_all decide
  · norm_num

/-- C9 (amended): when no AI labels are supplied every evidence entry's
`label_conf` comes from the heuristic labeler and lies in `[0, 1]`;
AI-supplied confidences, however, are propagated unclamped into `label_conf`
(the `[0,1]` clamp is applied only inside the unit-strength factor). -/
theorem fc_c9_amended (claim : String) (items : List NewsItem) (now : ℤ) :
    ((scoreFactcheck claim items (fun i => none) now).evidence.all
      fun e => decide (0 ≤ e.labelConf ∧ e.labelConf ≤ 1)) = true := by
  by_cases h : items = []
  · simp [scoreFactcheck, h]
  · simp only [scoreFactcheck, if_neg h]
    rw [List.all_eq_true]
    intro e he
    have hmem : e ∈ scoreRows claim now (fun i => none) items :=
      ((List.perm_insertionSort effGE _).mem_iff).mp he
    simp only [scoreRows, List.mem_map] at hmem
    obtain ⟨⟨i, it⟩, _, rfl⟩ := hmem
    simp only [scoreEvidenceRow]
    rw [decide_eq_true_eq]
    exact heuristicLabel_conf_bounds claim it _

/-! ## Claim C1 -/

theorem scoreFactcheck_bounds (claim : String) (items : List NewsItem)
    (aiLabels : ℕ → Option AiLabel) (now : ℤ) :
    (scoreFactcheck claim items aiLabels now).truthProb +
        (scoreFactcheck claim items aiLabels now).fakeProb = 1 ∧
      (3/100 : ℝ) ≤ (scoreFactcheck claim items aiLabels now).truthProb ∧
      (scoreFactcheck claim items aiLabels now).truthProb ≤ 97/100 ∧
      (10/100 : ℚ) ≤ (scoreFactcheck claim items aiLabels now).confidence ∧
      (scoreFactcheck claim items aiLabels now).confidence ≤ 97/100 := by
  by_cases h : items = []
  · simp only [scoreFactcheck, if_pos h]
    norm_num
  · simp only [scoreFactcheck, if_neg h]
    refine ⟨by ring, ?_, ?_, ?_, ?_⟩
    · exact le_max_left _ _
    · exact max_le (by norm_num) (min_le_left _ _)
    · exact le_max_left _ _
    · exact max_le (by norm_num) (min_le_left _ _)

theorem blendFactScores_bounds (internal : FactResult) (aw : Option AiWebVerdict)
    (h1 : internal.truthProb + internal.fakeProb = 1)
    (h2 : (3/100 : ℝ) ≤ internal.truthProb) (h3 : internal.truthProb ≤ 97/100)
    (h4 : (10/100 : ℚ) ≤ internal.confidence) (h5 : internal.confidence ≤ 97/100) :
    (blendFactScores internal aw).truthProb + (blendFactScores internal aw).fakeProb = 1 ∧
      (2/100 : ℝ) ≤ (blendFactScores internal aw).truthProb ∧
      (blendFactScores internal aw).truthProb ≤ 98/100 ∧
      (10/100 : ℚ) ≤ (blendFactScores internal aw).confidence ∧
      (blendFactScores internal aw).confidence ≤ 98/100 := by
  match aw with
  | none =>
      simp only [blendFactScores]
      exact ⟨h1, by linarith, by linarith, h4, by linarith⟩
  | some aw =>
      simp only [blendFactScores]
      by_cases hs : aw.sources.length < 2
      · rw [if_pos hs]
        exact ⟨h1, by linarith, by linarith, h4, by linarith⟩
      · rw [if_neg hs]
        refine ⟨by ring, le_max_left _ _, max_le (by norm_num) (min_le_left _ _),
          le_max_left _ _, max_le (by norm_num) (min_le_left _ _)⟩

/-- C1 (counterexample): on the AI web-verdict blending path the confidence
clamp is `[0.10, 0.98]`, not `[0.10, 0.97]`: eight fresh, fully relevant,
high-tier supporting items give internal confidence `0.97`, and blending with
a confidence-1.0 AI verdict (two sources) yields
`max(0.97, 0.75·0.97 + 0.25·1.0) = 0.9775 > 0.97`. -/
theorem fc_c1_counterexample :
    97/100 <
      (blendFactScores
        (scoreFactcheck "c"
          [⟨"s1", "high", "", "", "", "", 1000, 0, some 1⟩,
           ⟨"s2", "high", "", "", "", "", 1000, 0, some 1⟩,
           ⟨"s3", "high", "", "", "", "", 1000, 0, some 1⟩,
           ⟨"s4", "high", "", "", "", "", 1000, 0, some 1⟩,
           ⟨"s5", "high", "", "", "", "", 1000, 0, some 1⟩,
           ⟨"s6", "high", "", "", "", "", 1000, 0, some 1⟩,
           ⟨"s7", "high", "", "", "", "", 1000, 0, some 1⟩,
           ⟨"s8", "high", "", "", "", "", 1000, 0, some 1⟩]
          (fun i => some ⟨"support", 1, ""⟩) 1000)
        (some ⟨1, 1, "", ["u1", "u2"]⟩)).confidence := by
  set_option maxRecDepth 4000 in with_unfolding_all decide

/-- C1 (amended): `truth_prob + fake_prob = 1` always; the internal scorer
clamps `truth_prob` to `[0.03, 0.97]` and `confidence` to `[0.10, 0.97]`, but
the AI web-verdict blending path uses the wider clamps `[0.02, 0.98]` for
`truth_prob` and `[0.10, 0.98]` for `confidence`. -/
theorem fc_c1_amended (claim : String) (items : List NewsItem)
    (aiLabels : ℕ → Option AiLabel) (now : ℤ) (aw : Option AiWebVerdict) :
    ((scoreFactcheck claim items aiLabels now).truthProb +
        (scoreFactcheck claim items aiLabels now).fakeProb = 1 ∧
      (3/100 : ℝ) ≤ (scoreFactcheck claim items aiLabels now).truthProb ∧
      (scoreFactcheck claim items aiLabels now).truthProb ≤ 97/100 ∧
      (10/100 : ℚ) ≤ (scoreFactcheck claim items aiLabels now).confidence ∧
      (scoreFactcheck claim items aiLabels now).confidence ≤ 97/100) ∧
    ((blendFactScores (scoreFactcheck claim items aiLabels now) aw).truthProb +
        (blendFactScores (scoreFactcheck claim items aiLabels now) aw).fakeProb = 1 ∧
      (2/100 : ℝ) ≤ (blendFactScores (scoreFactcheck claim items aiLabels now) aw).truthProb ∧
      (blendFactScores (scoreFactcheck claim items aiLabels now) aw).truthProb ≤ 98/100 ∧
      (10/100 : ℚ) ≤ (blendFactScores (scoreFactcheck claim items aiLabels now) aw).confidence ∧
      (blendFactScores (scoreFactcheck claim items aiLabels now) aw).confidence ≤ 98/100) := by
  obtain ⟨h1, h2, h3, h4, h5⟩ := scoreFactcheck_bounds claim items aiLabels now
  exact ⟨⟨h1, h2, h3, h4, h5⟩, blendFactScores_bounds _ aw h1 h2 h3 h4 h5⟩

/-! ## Claim C7 -/

/-- C7: blending never lowers confidence.  When the internal confidence is in
the scorer's output range `[0.10, 0.97]` and the AI web verdict is accepted
(at least two sources), the merged confidence
`clamp(max(c, 0.75c + 0.25·ai), 0.10, 0.98)` is at least the internal
confidence, for any real AI truth probability and confidence. -/
theorem fc_c7_blend_confidence (r : FactResult) (aw : AiWebVerdict)
    (hlo : (10/100 : ℚ) ≤ r.confidence) (hhi : r.confidence ≤ 97/100)
    (hsrc : 2 ≤ aw.sources.length) :
    r.confidence ≤ (blendFactScores r (some aw)).confidence := by
  simp only [blendFactScores]
  rw [if_neg (by omega)]
  have hstep : r.confidence ≤ min (98/100)
      (max r.confidence (75/100 * r.confidence + 25/100 * aw.confidence)) :=
    le_min (by linarith) (le_max_left _ _)
  exact le_trans hstep (le_max_right _ _)

/-- C7 (witness): applying the theorem to the concrete zero-evidence internal
result (confidence `0.15`) and a two-source AI verdict. -/
theorem fc_c7_blend_confidence_witness :
    (scoreFactcheck "c" [] (fun i => none) 0).confidence ≤
      (blendFactScores (scoreFactcheck "c" [] (fun i => none) 0)
        (some ⟨1/2, 1/2, "", ["a", "b"]⟩)).confidence :=
  fc_c7_blend_confidence _ _
    (by simp [scoreFactcheck]; norm_num)
    (by simp [scoreFactcheck]; norm_num)
    (by simp)

/-! ## `_clean_html_text`, `_canonical_news_link`, `_domain_from_url` -/

def tagScan : List Char → Option (List Char)
  | [] => none
  | c :: rest => if c = '>' then some rest else tagScan rest

theorem tagScan_length : ∀ {l r : List Char}, tagScan l = some r → r.length < l.length := by
  intro l
  induction l with
  | nil => intro r h; cases h
  | cons c rest ih =>
      intro r h
      simp only [tagScan] at h
      split at h
      · cases h; simp
      · have := ih h; simp; omega

/-- The remainder after a `<[^>]+>` tag (at least one non-`>` character before
the closing `>`), given the characters following the `<`. -/
def tagRemainder : List Char → Option (List Char)
  | [] => none
  | c :: rest => if c = '>' then none else tagScan rest

theorem tagRemainder_length {l r : List Char} (h : tagRemainder l = some r) :
    r.length < l.length := by
  match l with
  | [] => cases h
  | c :: rest =>
      simp only [tagRemainder] at h
      split at h
      · cases h
      · have := tagScan_length h; simp; omega

/-- `re.sub(r"<[^>]+>", " ", text)` on the character list. -/
def stripTags : List Char → List Char
  | [] => []
  | c :: rest =>
      if c = '<' then
        match h : tagRemainder rest with
        | some r => ' ' :: stripTags r
        | none => c :: stripTags rest
      else c :: stripTags rest
termination_by l => l.length
decreasing_by
  · have := tagRemainder_length h; simp; omega
  · simp
  · simp

/-- `_clean_html_text`: entity-unescape and collapse whitespace when no angle
brackets occur; for bracketed input the `BeautifulSoup` markup-stripping path
is modelled by its own regex fallback `re.sub(r"<[^>]+>", " ", text)`
(the source uses the parser when available and that regex on failure). -/
def cleanHtmlText (raw : String) : String :=
  let text := pyStripStr raw
  if text = "" then ""
  else if ¬ text.data.contains '<' ∧ ¬ text.data.contains '>' then
    ⟨collapseWs (unescapeHtml text.data)⟩
  else ⟨collapseWs (stripTags text.data)⟩

/-- First occurrence split: `some (before, after)` around `sep`. -/
def splitOnceGo (sep : List Char) (acc : List Char) :
    List Char → Option (List Char × List Char)
  | [] => none
  | c :: rest =>
      if prefixB sep (c :: rest) then some (acc.reverse, (c :: rest).drop sep.length)
      else splitOnceGo sep (c :: acc) rest

def splitOnce (sep l : List Char) : Option (List Char × List Char) :=
  splitOnceGo sep [] l

/-- Split at the first occurrence of `ch`; `(l, [])` when absent. -/
def splitAtChar (ch : Char) (l : List Char) : List Char × List Char :=
  match splitOnce [ch] l with
  | some p => p
  | none => (l, [])

/-- A model of `urllib.parse.urlparse` restricted to what
`_canonical_news_link` and `_domain_from_url` read, faithful for absolute
`scheme://netloc[/path][?query][#fragment]` URLs (path parameters `;` are not
split; no such links occur here). -/
def urlParts (l : List Char) : List Char × List Char × List Char × List Char :=
  let beforeFrag := (splitAtChar '#' l).1
  match splitOnce "://".data beforeFrag with
  | some (schemeRaw, rest) =>
      let netloc := rest.takeWhile fun c => c ≠ '/' ∧ c ≠ '?'
      let rest2 := rest.drop netloc.length
      let path := (splitAtChar '?' rest2).1
      let query := (splitAtChar '?' rest2).2
      (pyLowerList schemeRaw, netloc, path, query)
  | none =>
      let path := (splitAtChar '?' beforeFrag).1
      let query := (splitAtChar '?' beforeFrag).2
      ([], [], path, query)

/-- `_canonical_news_link`. -/
def canonicalNewsLink (link : String) : String :=
  let value := pyStripStr link
  if value = "" then ""
  else
    let value : String := if prefixB "//".data value.data then "https:" ++ value else value
    if ¬ prefixB "http".data value.data then value
    else
      let p := urlParts value.data
      let cleaned := pyRstripChars ['/'] (p.1 ++ "://".data ++ p.2.1 ++ p.2.2.1)
      let cleaned :=
        if p.2.2.2 ≠ [] ∧ ¬ substrB "news.google.com".data p.2.1 then
          cleaned ++ ['?'] ++ p.2.2.2
        else cleaned
      if cleaned = [] then value else ⟨cleaned⟩

/-- `_domain_from_url`. -/
def domainFromUrl (url : String) : String :=
  let value := pyStripStr url
  if value = "" then ""
  else
    let netloc := pyLowerList (urlParts value.data).2.1
    let netloc := if prefixB "www.".data netloc then netloc.drop 4 else netloc
    ⟨netloc⟩

/-! ## `_merge_news_items` -/

/-- `_news_item_timestamp`. -/
def newsItemTimestamp (it : NewsItem) : ℤ :=
  if it.publishedTs ≠ 0 then it.publishedTs
  else if it.fetchedAt ≠ 0 then it.fetchedAt else 0

/-- The normalisation and defaulting `_merge_news_items` applies to each raw
item before dedup. -/
def processRawItem (now : ℤ) (raw : NewsItem) : NewsItem :=
  let link := pyTake 1200 (canonicalNewsLink raw.link)
  let title := pyTake 600 (cleanHtmlText raw.title)
  let summary := pyTake 1500 (cleanHtmlText raw.summary)
  let normalizedTitle :=
    if raw.normalizedTitle = "" then pyTake 700 (normalizeFaText title)
    else raw.normalizedTitle
  let source :=
    if raw.source = "" then
      (if domainFromUrl link = "" then "Web" else domainFromUrl link)
    else raw.source
  let sourceTier :=
    if raw.sourceTier = "" then inferSourceTier source "medium" else raw.sourceTier
  let fetchedAt := if raw.fetchedAt = 0 then now else raw.fetchedAt
  ⟨source, sourceTier, title, summary, link, normalizedTitle, raw.publishedTs,
    fetchedAt, raw.relevance⟩

/-- Dedup identity: normalised canonical link, falling back to
`source|title`. -/
def mergeKey (it : NewsItem) : String :=
  if normalizeText it.link ≠ "" then normalizeText it.link
  else normalizeText it.source ++ "|" ++ normalizeText it.title

/-- Replace the value stored at `k`, keeping its position. -/
def assocUpdate (k : String) (v : NewsItem) :
    List (String × NewsItem) → List (String × NewsItem)
  | [] => []
  | (k2, v2) :: rest =>
      if k2 = k then (k2, v) :: rest else (k2, v2) :: assocUpdate k v rest

/-- One iteration of the `_merge_news_items` loop over the keyed accumulator
(`index_by_key` plus `merged`, with in-place replacement keeping the
position). -/
def mergeStep (now : ℤ) (acc : List (String × NewsItem)) (raw : NewsItem) :
    List (String × NewsItem) :=
  let item := processRawItem now raw
  if item.link = "" ∧ item.title = "" then acc
  else
    let key := mergeKey item
    if key = "" then acc
    else
      match acc.find? fun e => e.1 = key with
      | none => acc ++ [(key, item)]
      | some e =>
          let oldTs := newsItemTimestamp e.2
          let newTs := newsItemTimestamp item
          let oldLen := e.2.title.length + e.2.summary.length
          let newLen := item.title.length + item.summary.length
          if oldTs < newTs ∨ (oldTs = newTs ∧ oldLen < newLen) then
            assocUpdate key item acc
          else acc

def mergeNewsItemsAssoc (now : ℤ) (items : List NewsItem) :
    List (String × NewsItem) :=
  items.foldl (mergeStep now) []

/-- `_merge_news_items`. -/
def mergeNewsItems (now : ℤ) (items : List NewsItem) : List NewsItem :=
  (mergeNewsItemsAssoc now items).map Prod.snd

/-! ## Claim C4 -/

/-- Invariant of the merge accumulator: every stored item passed the
emptiness guard, is stored under its own dedup key, and keys are unique. -/
def mergeInv (acc : List (String × NewsItem)) : Prop :=
  (∀ e ∈ acc, ¬(e.2.link = "" ∧ e.2.title = "") ∧ e.1 = mergeKey e.2) ∧
    (acc.map Prod.fst).Nodup

theorem assocUpdate_map_fst (k : String) (v : NewsItem) :
    ∀ l : List (String × NewsItem),
      (assocUpdate k v l).map Prod.fst = l.map Prod.fst := by
  intro l
  induction l with
  | nil => rfl
  | cons e rest ih =>
      obtain ⟨k2, v2⟩ := e
      simp only [assocUpdate]
      split
      · simp_all
      · simp [ih]

theorem assocUpdate_mem {k : String} {v : NewsItem} :
    ∀ {l : List (String × NewsItem)} {e : String × NewsItem},
      e ∈ assocUpdate k v l → e ∈ l ∨ e = (k, v) := by
  intro l
  induction l with
  | nil => intro e h; cases h
  | cons hd rest ih =>
      obtain ⟨k2, v2⟩ := hd
      intro e h
      simp only [assocUpdate] at h
      split at h
      · rename_i hk
        rcases List.mem_cons.mp h with rfl | h2
        · right; rw [hk]
        · left; exact List.mem_cons_of_mem _ h2
      · rcases List.mem_cons.mp h with rfl | h2
        · left; exact List.mem_cons_self _ _
        · rcases ih h2 with h3 | h3
          · left; exact List.mem_cons_of_mem _ h3
          · right; exact h3

theorem mergeStep_inv (now : ℤ) (raw : NewsItem) {acc : List (String × NewsItem)}
    (h : mergeInv acc) : mergeInv (mergeStep now acc raw) := by
  obtain ⟨hmem, hnodup⟩ := h
  simp only [mergeStep]
  generalize processRawItem now raw = item0
  split
  · exact ⟨hmem, hnodup⟩
  · rename_i hguard
    split
    · exact ⟨hmem, hnodup⟩
    · rename_i hkey
      split
      · rename_i hfind
        constructor
        · intro e he
          rcases List.mem_append.mp he with h2 | h2
          · exact hmem e h2
          · rcases List.mem_singleton.mp h2 with rfl
            exact ⟨hguard, rfl⟩
        · rw [List.map_append, List.map_singleton]
          rw [List.nodup_append]
          refine ⟨hnodup, List.nodup_singleton _, ?_⟩
          intro a ha hb
          have heq := List.mem_singleton.mp hb
          rcases List.mem_map.mp ha with ⟨e, he, hfst⟩
          have hne := List.find?_eq_none.mp hfind e he
          simp only [decide_eq_true_eq] at hne
          exact hne (hfst.trans heq)
      · rename_i e0 hfind
        split
        · constructor
          · intro e he
            rcases assocUpdate_mem he with h2 | h2
            · exact hmem e h2
            · rw [h2]
              exact ⟨hguard, rfl⟩
          · rw [assocUpdate_map_fst]
            exact hnodup
        · exact ⟨hmem, hnodup⟩

theorem mergeFold_inv (now : ℤ) (items : List NewsItem) :
    ∀ acc, mergeInv acc → mergeInv (items.foldl (mergeStep now) acc) := by
  induction items with
  | nil => intro acc h; exact h
  | cons raw rest ih =>
      intro acc h
      exact ih _ (mergeStep_inv now raw h)

set_option maxHeartbeats 2000000 in
/-- C4 (counterexample): an item with a non-empty link and an **empty** title
survives the merge — the guard only discards items where link and title are
both empty, so the merged pool does not guarantee non-empty titles. -/
theorem fc_c4_counterexample :
    (mergeNewsItems 5 [⟨"Src", "low", "", "", "about-page", "x", 0, 7, none⟩]).map
        (fun it => (it.link, it.title)) = [("about-page", "")] ∧
      ("about-page" : String) ≠ "" := by
  constructor
  · with_unfolding_all decide
  · decide

/-- C4 (amended): the merge discards an item only when its canonicalised link
**and** its cleaned title are both empty, so every merged item has a non-empty
link **or** a non-empty title (not necessarily both); the dedup identity key —
normalised canonical link, falling back to `source|title` when the link is
empty — is unique across the merged pool, and every stored entry is keyed by
its own item's key. -/
theorem fc_c4_amended (now : ℤ) (items : List NewsItem) :
    ((mergeNewsItems now items).all fun it =>
        !(decide (it.link = "") && decide (it.title = ""))) = true ∧
      ((mergeNewsItemsAssoc now items).map Prod.fst).Nodup ∧
      ((mergeNewsItemsAssoc now items).all fun e => decide (e.1 = mergeKey e.2)) = true := by
  have hbase : mergeInv [] := by
    unfold mergeInv
    exact ⟨fun e h => absurd h (List.not_mem_nil e), by simp⟩
  have hinv : mergeInv (mergeNewsItemsAssoc now items) :=
    mergeFold_inv now items [] hbase
  obtain ⟨hmem, hnodup⟩ := hinv
  refine ⟨?_, hnodup, ?_⟩
  · rw [List.all_eq_true]
    intro it hit
    rcases List.mem_map.mp hit with ⟨e, he, rfl⟩
    have := (hmem e he).1
    simp only [Bool.not_eq_true', Bool.and_eq_false_iff]
    by_cases h1 : e.2.link = ""
    · right
      simp only [decide_eq_false_iff_not]
      intro h2
      exact this ⟨h1, h2⟩
    · left
      simp [h1]
  · rw [List.all_eq_true]
    intro e he
    simp only [decide_eq_true_eq]
    exact (hmem e he).2

/-! ## `build_factcheck_report`

The renderer reads a fixed set of keys from the result dictionary; the
`ReportInput` structure mirrors exactly those keys (with the Python defaults
for the nested dict shapes noted per field).  Environment-default constants:
`FACTCHECK_RECENT_DAYS = 120`, `FACTCHECK_AI_WEBSEARCH_MAX_SOURCES = 6`. -/

structure ReportEvidence where
  label : String
  source : String
  title : String
  link : String
  publishedTs : ℤ
  deriving DecidableEq

structure ReasoningPart where
  claimPart : String
  status : String
  why : String
  evidence : List ℤ
  deriving DecidableEq

structure AiReasoning where
  overall : String
  why : String
  missing : String
  parts : List ReasoningPart
  deriving DecidableEq

structure AiWebSource where
  stance : String
  title : String
  publisher : String
  date : String
  url : String
  note : String
  deriving DecidableEq

structure AiWebReport where
  verdict : String
  truthProb : ℚ
  confidence : ℚ
  why : String
  checks : List String
  sources : List AiWebSource
  deriving DecidableEq

structure ReportInput where
  ok : Bool
  error : Option String
  truthProb : ℚ
  fakeProb : ℚ
  confidence : ℚ
  claim : String
  translatedClaim : String
  evidence : List ReportEvidence
  verdict : String
  mode : String
  aiUsed : Bool
  reasoning : Option AiReasoning
  aiWeb : Option AiWebReport
  irCount : ℤ
  globalCount : ℤ
  scoreReason : String
  scoreWhy : String
  lang : String
  queryAttempts : ℤ
  fetchedCount : ℤ
  fetchedRssCount : ℤ
  fetchedLiveCount : ℤ
  liveQueriesUsed : ℤ
  liveEnabled : Bool
  supportCount : ℤ
  refuteCount : ℤ
  relatedCount : ℤ
  sourceCount : ℤ
  candidateCount : ℤ
  recentCandidateCount : ℤ

def pad2 (n : ℤ) : String := if n < 10 then "0" ++ toString n else toString n

def pad4 (n : ℤ) : String :=
  if n < 10 then "000" ++ toString n
  else if n < 100 then "00" ++ toString n
  else if n < 1000 then "0" ++ toString n
  else toString n

/-- Civil date from a day number (days since 1970-01-01, floor), the standard
Gregorian conversion. -/
def civilFromDays (z0 : ℤ) : ℤ × ℤ × ℤ :=
  let z := z0 + 719468
  let era := Int.fdiv z 146097
  let doe := z - era * 146097
  let yoe := (doe - doe / 1460 + doe / 36524 - doe / 146096) / 365
  let y := yoe + era * 400
  let doy := doe - (365 * yoe + yoe / 4 - yoe / 100)
  let mp := (5 * doy + 2) / 153
  let d := doy - (153 * mp + 2) / 5 + 1
  let m := mp + (if mp < 10 then 3 else -9)
  (y + (if m ≤ 2 then 1 else 0), m, d)

/-- `_fmt_news_date`: `--` for a missing timestamp, otherwise `%Y-%m-%d` in
the fixed UTC+03:30 Tehran offset. -/
def fmtNewsDate (ts : ℤ) : String :=
  if ts = 0 then "--"
  else
    let ymd := civilFromDays (Int.fdiv (ts + 12600) 86400)
    pad4 ymd.1 ++ "-" ++ pad2 ymd.2.1 ++ "-" ++ pad2 ymd.2.2

def statusMapLookup (s : String) : String :=
  if s = "true" then "✅ درست"
  else if s = "false" then "❌ نادرست"
  else if s = "uncertain" then "⚪️ نامطمئن" else "⚪️ نامطمئن"

def aiwLabelLookup (s : String) : String :=
  if s = "likely_true" then "احتمالاً واقعی"
  else if s = "likely_false" then "احتمالاً فیک/گمراه‌کننده"
  else if s = "uncertain" then "نامطمئن" else "نامطمئن"

def stanceIconLookup (s : String) : String :=
  if s = "support" then "✅" else if s = "refute" then "❌"
  else if s = "related" then "➖" else "➖"

def labelIconLookup (s : String) : String :=
  if s = "support" then "✅" else if s = "refute" then "❌"
  else if s = "related" then "➖" else if s = "irrelevant" then "▫️" else "▫️"

/-- `sorted(set(xs))` over integers. -/
def sortedDedupInts (xs : List ℤ) : List ℤ :=
  List.insertionSort (fun a b : ℤ => a ≤ b) xs.dedup

def joinCommaInts (xs : List ℤ) : String :=
  ⟨joinSep ", ".data (xs.map fun x => (toString x).data)⟩

def reasoningPartLines (part : ReasoningPart) : List String :=
  let ptxt := pyStripStr part.claimPart
  let pwhy := pyStripStr part.why
  let status := statusMapLookup (normalizeText part.status)
  let evidIds := part.evidence
  let refs :=
    if evidIds ≠ [] then " [منابع: " ++ joinCommaInts (sortedDedupInts evidIds) ++ "]"
    else ""
  (if ptxt ≠ "" then ["• " ++ status ++ ": " ++ ptxt ++ refs] else []) ++
    (if pwhy ≠ "" then ["  ↳ " ++ pwhy] else [])

def reasoningLines (rsn : AiReasoning) : List String :=
  let overall := pyStripStr rsn.overall
  let why := pyStripStr rsn.why
  let missing := pyStripStr rsn.missing
  (if overall ≠ "" then ["🧠 تحلیل هوشمند: " ++ overall] else []) ++
    (if why ≠ "" then ["• چرا: " ++ why] else []) ++
    (if rsn.parts ≠ [] then
      "🔬 بررسی جزءبه‌جزء ادعا:" :: (rsn.parts.take 5).flatMap reasoningPartLines
    else []) ++
    (if missing ≠ "" then ["🧩 شکاف اطلاعاتی: " ++ missing] else [])

def aiWebSourceLines (idxSrc : ℕ × AiWebSource) : List String :=
  let st := normalizeText idxSrc.2.stance
  let icon := stanceIconLookup st
  let title := pyTake 120 idxSrc.2.title
  let pub := pyTake 50 idxSrc.2.publisher
  let dt := pyTake 16 idxSrc.2.date
  let url := pyTake 300 idxSrc.2.url
  let note := pyTake 140 (pyStripStr idxSrc.2.note)
  [toString (idxSrc.1 + 1) ++ ") " ++ icon ++ " [" ++ pub ++ "] (" ++ dt ++ ") " ++ title] ++
    (if note ≠ "" then ["  ↳ " ++ note] else []) ++
    (if url ≠ "" then [url] else [])

def aiWebLines (aw : AiWebReport) : List String :=
  let aiwVerdict := normalizeText aw.verdict
  let aiwLabel := aiwLabelLookup aiwVerdict
  let aiwTruth := pyRound (aw.truthProb * 100)
  let aiwConf := pyRound (aw.confidence * 100)
  let aiwWhy := pyStripStr aw.why
  ["🛰 راستی‌آزمایی وب‌محور AI: " ++ aiwLabel ++ " | واقعی " ++ toString aiwTruth ++
      "٪ | اطمینان " ++ toString aiwConf ++ "٪"] ++
    (if aiwWhy ≠ "" then ["• تحلیل AI: " ++ pyTake 260 aiwWhy] else []) ++
    (if aw.checks ≠ [] then
      "• نکات تحلیلی AI:" ::
        ((aw.checks.take 4).filterMap fun c =>
          let txt := pyStripStr c
          if txt ≠ "" then some ("  - " ++ pyTake 180 txt) else none)
    else []) ++
    (if aw.sources ≠ [] then
      "🌐 منابع استنادی AI (وب):" :: ((aw.sources.take 6).enum.flatMap aiWebSourceLines)
    else [])

def evidenceLines (idxItem : ℕ × ReportEvidence) : List String :=
  let label := normalizeText idxItem.2.label
  let icon := labelIconLookup label
  let source := pyTake 50 idxItem.2.source
  let title := pyTake 160 idxItem.2.title
  let link := pyTake 300 idxItem.2.link
  let dateText := fmtNewsDate idxItem.2.publishedTs
  [toString (idxItem.1 + 1) ++ ") " ++ icon ++ " [" ++ source ++ "] (" ++ dateText ++
      ") " ++ title] ++
    (if link ≠ "" then [link] else [])

def disclaimerLine : String :=
  "⚠️ این خروجی خودکار است و برای تصمیم حساس باید با منابع رسمی تکمیلی چک شود."

/-- The line list `build_factcheck_report` assembles before the length
guard. -/
def buildReportLines (r : ReportInput) : List String :=
  let truthPct := pyRound (r.truthProb * 100)
  let fakePct := pyRound (r.fakeProb * 100)
  let confPct := pyRound (r.confidence * 100)
  let claim := pyTake 500 r.claim
  let translated := pyStripStr r.translatedClaim
  let mode := normalizeText r.mode
  let scoreReason := normalizeText r.scoreReason
  let scoreWhy := pyStripStr r.scoreWhy
  (["🧪 راستی‌آزمایی خبر",
    "🔧 حالت بررسی: " ++
      (if mode = "pro" then "پیشرفته (AI)"
       else if mode = "brief" then "خیلی خلاصه" else "اخبار"),
    "🎯 ادعای اصلی: " ++ claim,
    "🧭 نتیجه: " ++ r.verdict,
    "• احتمال واقعی بودن: " ++ toString truthPct ++ "٪",
    "• احتمال فیک/گمراه‌کننده بودن: " ++ toString fakePct ++ "٪",
    "• سطح اطمینان تحلیل: " ++ toString confPct ++ "٪",
    "📚 شواهد: موافق " ++ toString r.supportCount ++ " | مخالف " ++
      toString r.refuteCount ++ " | مرتبط " ++ toString r.relatedCount,
    "🌐 تنوع منبع: " ++ toString r.sourceCount ++ " منبع",
    "🗂 پایگاه بررسی: " ++ toString r.globalCount ++ " منبع جهانی + " ++
      toString r.irCount ++ " منبع داخلی",
    "🔍 بازیابی سند: کوئری " ++ toString r.queryAttempts ++ " | RSS " ++
      toString r.fetchedRssCount ++ " | Live " ++ toString r.fetchedLiveCount ++
      " | مجموع " ++ toString r.fetchedCount,
    "🕒 فیلتر زمانی: 120 روز اخیر | کاندید مرتبط: " ++ toString r.candidateCount ++
      " | اخیر: " ++ toString r.recentCandidateCount] ++
  [if r.liveEnabled then
      "🌍 جست‌وجوی زنده وب: فعال (اجرا شده روی " ++ toString r.liveQueriesUsed ++ " کوئری)"
    else "🌍 جست‌وجوی زنده وب: غیرفعال (فقط ایندکس خبری/آرشیو)"] ++
  (if scoreWhy ≠ "" then ["📌 دلیل امتیاز: " ++ scoreWhy] else []) ++
  (if scoreReason = "no_evidence" then
      ["📎 چرا 50/50؟ چون هیچ سند کافی پیدا نشد و نتیجه به‌صورت خنثی/کم‌اطمینان گزارش شده است."]
    else []) ++
  (if translated ≠ "" then
      (if r.lang = "fa" then ["🔄 ترجمه انگلیسی ادعا: " ++ pyTake 260 translated]
       else if r.lang = "en" then ["🔄 ترجمه فارسی ادعا: " ++ pyTake 260 translated]
       else [])
    else []) ++
  (match r.reasoning with
   | some rsn => if mode = "pro" then reasoningLines rsn else []
   | none =>
       if mode = "pro" ∧ r.aiUsed = false then
         ["ℹ️ تحلیل پیشرفته AI فعال نشد (کلید API موجود نیست)؛ خروجی با موتور سندی داخلی تولید شد."]
       else []) ++
  (if mode = "pro" ∧ r.aiUsed = true then
      match r.aiWeb with
      | some aw => aiWebLines aw
      | none => ["🛰 راستی‌آزمایی وب‌محور AI: برای این ادعا سند معتبر کافی برنگرداند."]
    else []) ++
  ["🔎 منابع شاخص:"] ++
  (if r.evidence = [] then ["• سند قابل اتکای مستقیمی پیدا نشد (در این اجرا)."] else []) ++
  ((r.evidence.take (if mode = "brief" then 3 else 6)).enum.flatMap evidenceLines) ++
  (if mode = "brief" then
      ["📝 جمع‌بندی کوتاه: این نتیجه سریع است؛ برای بررسی عمیق از /fact_pro استفاده کن."]
    else [])) ++
  [disclaimerLine]

def joinNl (lines : List String) : String :=
  ⟨joinSep ['\n'] (lines.map String.data)⟩

/-- `lines.pop(-2 if len(lines) > 2 else -1)`. -/
def popSecondLast (lines : List String) : List String :=
  if 2 < lines.length then lines.take (lines.length - 2) ++ lines.drop (lines.length - 1)
  else lines.dropLast

theorem popSecondLast_length {l : List String} (h : 2 < l.length) :
    (popSecondLast l).length = l.length - 1 := by
  simp only [popSecondLast, if_pos h, List.length_append, List.length_take,
    List.length_drop]
  omega

/-- The `while len(output) > 3900 and len(lines) > 14` guard loop. -/
def popLoop (lines : List String) : List String :=
  if h : 3900 < (joinNl lines).length ∧ 14 < lines.length then
    popLoop (popSecondLast lines)
  else lines
termination_by lines.length
decreasing_by
  rw [popSecondLast_length (by omega)]
  omega

/-- `build_factcheck_report`. -/
def buildFactcheckReport (r : ReportInput) : String :=
  if r.ok = false then
    match r.error with
    | some e => "⛔️ خطا در راستی‌آزمایی: " ++ e
    | none => "⛔️ خطا در راستی‌آزمایی: نامشخص"
  else joinNl (popLoop (buildReportLines r))

/-! ## Claim C2 -/

theorem getLast?_drop_of_lt {α : Type} :
    ∀ (l : List α) (k : ℕ), k < l.length → (l.drop k).getLast? = l.getLast? := by
  intro l
  induction l with
  | nil => intro k h; simp at h
  | cons a rest ih =>
      intro k h
      cases k with
      | zero => rfl
      | succ k =>
          simp only [List.drop_succ_cons]
          have hk : k < rest.length := by simpa using h
          rw [ih k hk]
          cases rest with
          | nil => simp at hk
          | cons b t => rw [List.getLast?_cons_cons]

theorem popSecondLast_getLast {l : List String} (h : 2 < l.length) :
    (popSecondLast l).getLast? = l.getLast? := by
  simp only [popSecondLast, if_pos h]
  have hne : l.drop (l.length - 1) ≠ [] := by
    intro hnil
    have hlen := congrArg List.length hnil
    simp at hlen
    omega
  rw [List.getLast?_append]
  rw [getLast?_drop_of_lt l (l.length - 1) (by omega)]
  cases hg : l.getLast? with
  | none =>
      exfalso
      have hnil : l ≠ [] := by
        intro h0
        subst h0
        simp at h
      have hsome := List.getLast?_isSome.mpr hnil
      rw [hg] at hsome
      cases hsome
  | some a => rfl

theorem popLoop_bound (lines : List String) :
    (joinNl (popLoop lines)).length ≤ 3900 ∨ (popLoop lines).length ≤ 14 := by
  induction lines using popLoop.induct with
  | case1 lines h ih =>
      rw [popLoop, dif_pos h]
      exact ih
  | case2 lines h =>
      rw [popLoop, dif_neg h]
      push_neg at h
      by_cases h1 : 3900 < (joinNl lines).length
      · exact Or.inr (h h1)
      · exact Or.inl (by omega)

theorem popLoop_getLast (lines : List String) :
    (popLoop lines).getLast? = lines.getLast? := by
  induction lines using popLoop.induct with
  | case1 lines h ih =>
      rw [popLoop, dif_pos h]
      rw [ih]
      exact popSecondLast_getLast (by omega)
  | case2 lines h =>
      rw [popLoop, dif_neg h]

theorem buildReportLines_getLast (r : ReportInput) :
    (buildReportLines r).getLast? = some disclaimerLine := by
  simp only [buildReportLines]
  exact List.getLast?_concat _

/-- The concrete minimal successful result used as the witness input. -/
def emptyOkReport : ReportInput :=
  ⟨true, none, 1/2, 1/2, 15/100, "", "", [], "نامطمئن", "news", false, none, none,
   0, 0, "no_evidence", "", "unknown", 0, 0, 0, 0, 0, false, 0, 0, 0, 0, 0, 0⟩

def bigVerdict : String := ⟨List.replicate 4000 'x'⟩

/-- A successful result whose `verdict` string alone exceeds the budget. -/
def oversizedReport : ReportInput :=
  ⟨true, none, 1/2, 1/2, 15/100, "", "", [], bigVerdict, "news",
   false, none, none, 0, 0, "scored", "", "unknown", 0, 0, 0, 0, 0, false,
   0, 0, 0, 0, 0, 0⟩

def c2VerdictLine : String := "🧭 نتیجه: " ++ bigVerdict

def c2Head : List String :=
  ["🧪 راستی‌آزمایی خبر",
   "🔧 حالت بررسی: اخبار",
   "🎯 ادعای اصلی: ",
   c2VerdictLine,
   "• احتمال واقعی بودن: 50٪",
   "• احتمال فیک/گمراه‌کننده بودن: 50٪",
   "• سطح اطمینان تحلیل: 15٪",
   "📚 شواهد: موافق 0 | مخالف 0 | مرتبط 0",
   "🌐 تنوع منبع: 0 منبع",
   "🗂 پایگاه بررسی: 0 منبع جهانی + 0 منبع داخلی",
   "🔍 بازیابی سند: کوئری 0 | RSS 0 | Live 0 | مجموع 0",
   "🕒 فیلتر زمانی: 120 روز اخیر | کاندید مرتبط: 0 | اخیر: 0",
   "🌍 جست‌وجوی زنده وب: غیرفعال (فقط ایندکس خبری/آرشیو)"]

def c2Lines0 : List String :=
  c2Head ++ ["🔎 منابع شاخص:",
             "• سند قابل اتکای مستقیمی پیدا نشد (در این اجرا).",
             disclaimerLine]

def c2Lines1 : List String :=
  c2Head ++ ["🔎 منابع شاخص:", disclaimerLine]

def c2Lines2 : List String := c2Head ++ [disclaimerLine]

theorem length_le_joinSep {l : List Char} (sep : List Char) :
    ∀ {ws : List (List Char)}, l ∈ ws → l.length ≤ (joinSep sep ws).length := by
  intro ws
  induction ws with
  | nil => intro h; cases h
  | cons w rest ih =>
      intro h
      match rest, h with
      | [], h =>
          rcases List.mem_singleton.mp h with rfl
          simp [joinSep]
      | r :: t, h =>
          rcases List.mem_cons.mp h with rfl | h2
          · show l.length ≤ (l ++ sep ++ joinSep sep (r :: t)).length
            simp
          · show l.length ≤ (w ++ sep ++ joinSep sep (r :: t)).length
            have := ih h2
            simp only [List.length_append]
            omega

theorem string_mk_length (l : List Char) : String.length ⟨l⟩ = l.length := rfl

theorem length_le_joinNl {s : String} {ls : List String} (h : s ∈ ls) :
    s.length ≤ (joinNl ls).length := by
  have hmem : s.data ∈ ls.map String.data := List.mem_map_of_mem _ h
  have hle := length_le_joinSep (l := s.data) ['\n'] hmem
  rw [show joinNl ls = ⟨joinSep ['\n'] (ls.map String.data)⟩ from rfl, string_mk_length]
  exact hle

theorem string_length_append (a b : String) : (a ++ b).length = a.length + b.length := by
  cases a with
  | mk l1 =>
      cases b with
      | mk l2 =>
          show (String.mk (l1 ++ l2)).length = _
          rw [string_mk_length, List.length_append]
          rfl

theorem c2VerdictLine_big : 3900 < c2VerdictLine.length := by
  have h1 : c2VerdictLine.length = "🧭 نتیجه: ".length + bigVerdict.length :=
    string_length_append "🧭 نتیجه: " bigVerdict
  have h2 : bigVerdict.length = 4000 := by
    rw [show bigVerdict = ⟨List.replicate 4000 'x'⟩ from rfl, string_mk_length,
      List.length_replicate]
  have h3 : "🧭 نتیجه: ".length = 9 := by decide
  omega

theorem c2VerdictLine_mem_head : c2VerdictLine ∈ c2Head := by
  simp only [c2Head]
  exact List.mem_cons_of_mem _ (List.mem_cons_of_mem _
    (List.mem_cons_of_mem _ (List.mem_cons_self _ _)))

theorem c2_join_big {tail : List String} :
    3900 < (joinNl (c2Head ++ tail)).length :=
  lt_of_lt_of_le c2VerdictLine_big
    (length_le_joinNl (List.mem_append_left _ c2VerdictLine_mem_head))

set_option maxHeartbeats 1000000 in
theorem c2_lines_eval : buildReportLines oversizedReport = c2Lines0 := by
  with_unfolding_all rfl

theorem c2_pop1 : popSecondLast c2Lines0 = c2Lines1 := by
  with_unfolding_all rfl

theorem c2_pop2 : popSecondLast c2Lines1 = c2Lines2 := by
  with_unfolding_all rfl

theorem c2_popLoop_eval : popLoop c2Lines0 = c2Lines2 := by
  rw [popLoop, dif_pos ⟨show 3900 < (joinNl c2Lines0).length from c2_join_big,
      by with_unfolding_all decide⟩, c2_pop1]
  rw [popLoop, dif_pos ⟨show 3900 < (joinNl c2Lines1).length from c2_join_big,
      by with_unfolding_all decide⟩, c2_pop2]
  rw [popLoop, dif_neg]
  intro hcontra
  have h14 := hcontra.2
  have : c2Lines2.length = 14 := by with_unfolding_all decide
  omega

/-- C2 (counterexample): the pop loop stops once only 14 lines remain, so a
successful result whose retained lines are long (here a 4000-character
verdict) is returned with length above 3900 — the ~3900 ceiling is **not**
guaranteed for every result dictionary. -/
theorem fc_c2_counterexample :
    3900 < (buildFactcheckReport oversizedReport).length := by
  have hok : ¬ (oversizedReport.ok = false) := by
    with_unfolding_all decide
  rw [buildFactcheckReport, if_neg hok, c2_lines_eval, c2_popLoop_eval]
  exact c2_join_big

/-- C2 (amended): for every successful result the renderer either returns at
most 3900 characters or has already pruned the line list down to 14 lines
(the second-to-last line being dropped each iteration), and the closing
disclaimer is always the last line of the pruned list; the ceiling is only
guaranteed when the 14 retained lines themselves fit the budget. -/
theorem fc_c2_amended (r : ReportInput) (h : r.ok = true) :
    ((buildFactcheckReport r).length ≤ 3900 ∨
        (popLoop (buildReportLines r)).length ≤ 14) ∧
      (popLoop (buildReportLines r)).getLast? = some disclaimerLine := by
  have hok : ¬ (r.ok = false) := by simp [h]
  constructor
  · have hb := popLoop_bound (buildReportLines r)
    simp only [buildFactcheckReport, if_neg hok]
    exact hb
  · rw [popLoop_getLast, buildReportLines_getLast]

set_option maxHeartbeats 1000000 in
/-- C2 (witness for the amended theorem): the minimal successful result. -/
theorem fc_c2_amended_witness :
    ((buildFactcheckReport emptyOkReport).length ≤ 3900 ∨
        (popLoop (buildReportLines emptyOkReport)).length ≤ 14) ∧
      (popLoop (buildReportLines emptyOkReport)).getLast? = some disclaimerLine :=
  fc_c2_amended emptyOkReport rfl

/-! ## The extractive summarizer (`_prepare_summary_text`, `_shrink_clause`,
`_split_sentences`, `_render_summary_sections`, and the early-return paths of
`_extractive_summary_local`) -/

/-- Python `text.split(ch)` (keeps empty parts). -/
def splitCharGo (ch : Char) (cur : List Char) : List Char → List (List Char)
  | [] => [cur.reverse]
  | c :: rest =>
      if c = ch then cur.reverse :: splitCharGo ch [] rest
      else splitCharGo ch (c :: cur) rest

/-- `_prepare_summary_text`: newline normalisation, markup stripping when
angle brackets occur (the `BeautifulSoup` call is modelled by the code's own
regex fallback `re.sub(r"<[^>]+>", " ", text)`), entity unescape, zero-width
joiner removal, per-line whitespace collapapse, empty lines dropped. -/
def prepareSummaryText (raw : String) : String :=
  let t1 := replaceList "\r\n".data "\n".data raw.data
  let t2 := replaceList "\r".data "\n".data t1
  let t3 := if t2.contains '<' ∧ t2.contains '>' then stripTags t2 else t2
  let t4 := unescapeHtml t3
  let t5 := t4.map fun c => if c = Char.ofNat 0x200C then ' ' else c
  let lines := ((splitCharGo '\n' [] t5).map collapseWs).filter fun l => l ≠ []
  ⟨pyStripList (joinSep ['\n'] lines)⟩

def shrinkPunct : List Char := ['.', '؟', '?', '!', '،', ',', '؛', ' ']

def shrinkStripSet : List Char := [' ', '\t', '-', '•']

def shrinkRstripSet : List Char := [' ', '،', ',', ':', ';', '.', '!', '؟', '?']

/-- The prefix-cut step of `_shrink_clause`: cut at `max_chars`, then back to
the last punctuation/space when it lies at or beyond `int(max_chars*0.55)`. -/
def shrinkCutStage (value : List Char) (maxChars : ℕ) : List Char :=
  let cut := value.take maxChars
  let splitPos : ℤ := (shrinkPunct.map fun c => pyRfindChar cut c).foldl max (-9999)
  if ((11 * maxChars / 20 : ℕ) : ℤ) ≤ splitPos then cut.take splitPos.toNat else cut

/-- The trailing-punctuation cleanup of `_shrink_clause`, with the short
fallback slice when everything was stripped. -/
def shrinkCleanStage (value : List Char) (maxChars : ℕ) : List Char :=
  let cutClean := pyRstripChars shrinkRstripSet (shrinkCutStage value maxChars)
  if cutClean = [] then pyStripList (value.take (max 12 (min maxChars 36))) else cutClean

/-- `_shrink_clause`. -/
def shrinkClause (text : String) (maxChars : ℕ) (addEllipsis : Bool) : String :=
  let value := pyStripChars shrinkStripSet (collapseWs text.data)
  if value.length ≤ maxChars then ⟨value⟩
  else
    let cutClean := shrinkCleanStage value maxChars
    let tail := if addEllipsis ∧ cutClean.length < value.length then "…".data else []
    ⟨cutClean ++ tail⟩

def sentEndPunct (c : Char) : Bool :=
  c = '.' ∨ c = '!' ∨ c = '?' ∨ c = '؟' ∨ c = '؛'

def headIsWs : List Char → Bool
  | [] => false
  | w :: _ => pyWsChar w

theorem dropWhile_length_le (p : Char → Bool) (l : List Char) :
    (l.dropWhile p).length ≤ l.length :=
  (l.dropWhile_sublist p).length_le

/-- `re.split(r"(?<=[\.\!\?؟؛])\s+", text)`. -/
def sentSplitGo (cur : List Char) : List Char → List (List Char)
  | [] => [cur.reverse]
  | c :: rest =>
      if sentEndPunct c ∧ headIsWs rest then
        (c :: cur).reverse :: sentSplitGo [] (rest.dropWhile pyWsChar)
      else sentSplitGo (c :: cur) rest
termination_by l => l.length
decreasing_by
  · have := dropWhile_length_le pyWsChar rest
    simp
    omega
  · simp

def clausePunct (c : Char) : Bool := c = '،' ∨ c = ',' ∨ c = '؛' ∨ c = ';'

def splitEmoji (c : Char) : Bool :=
  c.toNat = 0x1F602 ∨ c.toNat = 0x1F923 ∨ c.toNat = 0x1F605 ∨ c.toNat = 0x1F606 ∨
  c.toNat = 0x1F601 ∨ c.toNat = 0x1F604 ∨ c.toNat = 0x1F60A ∨ c.toNat = 0x1F642 ∨
  c.toNat = 0x1F643 ∨ c.toNat = 0x1F609

/-- `re.split(r"[،,؛;]\s+|(?<=[😂🤣😅😆😁😄😊🙂🙃😉])\s*", part)`: split on
clause punctuation followed by whitespace (separator removed), or after a chat
emoji (kept, following whitespace consumed, zero-width split allowed). -/
def clauseSplitGo (cur : List Char) : List Char → List (List Char)
  | [] => [cur.reverse]
  | c :: rest =>
      if clausePunct c ∧ headIsWs rest then
        cur.reverse :: clauseSplitGo [] (rest.dropWhile pyWsChar)
      else if splitEmoji c then
        (c :: cur).reverse :: clauseSplitGo [] (rest.dropWhile pyWsChar)
      else clauseSplitGo (c :: cur) rest
termination_by l => l.length
decreasing_by
  · have := dropWhile_length_le pyWsChar rest
    simp
    omega
  · have := dropWhile_length_le pyWsChar rest
    simp
    omega
  · simp

/-- Python `\w` over the alphabets appearing here (ASCII alphanumerics,
underscore, Arabic block). -/
def pyWordChar (c : Char) : Bool :=
  (48 ≤ c.toNat ∧ c.toNat ≤ 57) ∨ (65 ≤ c.toNat ∧ c.toNat ≤ 90) ∨
  (97 ≤ c.toNat ∧ c.toNat ≤ 122) ∨ c = '_' ∨ (0x0600 ≤ c.toNat ∧ c.toNat ≤ 0x06FF)

def continuationKeywords : List String := ["ولی", "اما", "که", "و", "بنابراین", "پس"]

/-- `re.match(r"^(ولی|اما|که|و|بنابراین|پس)\b", normalize_fa_text(part))`. -/
def boundaryAfter (n : ℕ) (norm : List Char) : Bool :=
  match norm.drop n with
  | [] => true
  | c :: _ => ¬ pyWordChar c

def startsWithContinuation (part : String) : Bool :=
  let norm := (normalizeFaText part).data
  continuationKeywords.any fun kw =>
    prefixB kw.data norm ∧ boundaryAfter kw.data.length norm

/-- `_split_sentences`. -/
def splitSentences (text : String) : List String :=
  let raw := pyStripStr text
  if raw = "" then []
  else
    let blocks := ((splitCharGo '\n' [] raw.data).map pyStripList).filter fun b => b ≠ []
    let out : List String := blocks.flatMap fun block =>
      let normalized := collapseWs block
      if normalized = [] then []
      else
        (sentSplitGo [] normalized).flatMap fun chunk =>
          let part := pyStripChars shrinkStripSet chunk
          if part = [] then []
          else if 230 < part.length then
            (clauseSplitGo [] part).filterMap fun sub =>
              let s := pyStripChars shrinkStripSet sub
              if 12 ≤ s.length then some (shrinkClause ⟨s⟩ 170 true) else none
          else [(⟨part⟩ : String)]
    let merged := (out.foldl (fun acc part =>
      match acc with
      | [] => [part]
      | lastP :: rest =>
          if startsWithContinuation part then
            pyStripStr (lastP ++ " " ++ part) :: rest
          else part :: lastP :: rest) []).reverse
    let compacted := (merged.foldl (fun acc part =>
      match acc with
      | [] => [part]
      | lastP :: rest =>
          if part.length < 22 then pyStripStr (lastP ++ " " ++ part) :: rest
          else part :: lastP :: rest) []).reverse
    compacted.take 90

/-- The early-return paths of `_extractive_summary_local`: empty input, no
sentences, or a single sentence.  `none` marks inputs on which control
continues into the generic frequency/TextRank/MMR pipeline (whose
floating-point `sqrt` weights are outside this rational embedding); the
claims settled here only exercise the early paths and the renderer. -/
def extractiveSummaryEarly (text : String) : Option String :=
  let source := prepareSummaryText text
  if source = "" then some "متنی برای خلاصه‌سازی پیدا نشد."
  else
    match splitSentences source with
    | [] => some ("خلاصه:\n" ++ ⟨pyRstripChars [' ', '\t', '\n', '\r', Char.ofNat 11, Char.ofNat 12] (source.data.take 420)⟩)
    | [s] =>
        let single := shrinkClause s 170 true
        some ("📝 خلاصه\n" ++ single ++ "\n\n🔹 نکات کلیدی\n• " ++ single)
    | _ => none

/-- `_dedupe_summary_points`. -/
def dedupeSummaryPoints (summary : String) (points : List String) : List String :=
  points.foldl (fun out p =>
    let pp := pyStripStr p
    if pp = "" then out
    else if 74/100 ≤ textSimilarity summary pp then out
    else if out.any fun existing => 86/100 ≤ textSimilarity pp existing then out
    else out ++ [pp]) []

def joinStrSep (sep : String) (xs : List String) : String :=
  ⟨joinSep sep.data (xs.map String.data)⟩

/-- The line list one iteration of `_render_summary_sections` builds. -/
def summaryBodyLines (summary : String) (points sensitiveFacts keyTerms : List String)
    (showKeywords : Bool) : List String :=
  ["📝 خلاصه", pyStripStr summary] ++
  (if points ≠ [] then "" :: "🔹 نکات کلیدی" :: points.map (fun p => "• " ++ p) else []) ++
  (if sensitiveFacts ≠ [] then
      "" :: "📎 فکت‌های مهم" :: (sensitiveFacts.take 3).map (fun f => "• " ++ f)
    else []) ++
  (if showKeywords ∧ keyTerms ≠ [] then
      ["", "🏷 کلیدواژه‌ها: " ++ joinStrSep " | " (keyTerms.take 5)]
    else [])

/-- The last-resort return of `_render_summary_sections`. -/
def summarySafeFallback (summary : String) (budget : ℕ) : String :=
  let safe := shrinkClause summary (max 72 (min 150 (11 * budget / 20))) true
  ⟨pyStripList ("📝 خلاصه\n" ++ safe).data⟩

/-- The `while True` loop of `_render_summary_sections`.  Each iteration
either returns, drops the keyword flag, drops one point, or strictly shrinks
the summary (a repeated summary returns the safe fallback), so the fuel
`points + summary-length + 3` dominates the iteration count; fuel exhaustion
returns the same safe fallback as the stationary-summary case. -/
def renderLoop (keyTerms sensitiveFacts : List String) (budget : ℕ) :
    ℕ → String → List String → Bool → String
  | 0, summary, _, _ => summarySafeFallback summary budget
  | fuel + 1, summary, points, showKeywords =>
      let body := pyStripStr (joinNl (summaryBodyLines summary points sensitiveFacts keyTerms showKeywords))
      if body.length ≤ budget then body
      else if showKeywords then renderLoop keyTerms sensitiveFacts budget fuel summary points false
      else if 1 < points.length then
        renderLoop keyTerms sensitiveFacts budget fuel summary points.dropLast showKeywords
      else
        let tighter := max 80 (min 170 (12 * budget / 25))
        let newSummary := shrinkClause summary tighter true
        if newSummary = summary then summarySafeFallback summary budget
        else renderLoop keyTerms sensitiveFacts budget fuel newSummary points showKeywords

/-- The output budget of `_render_summary_sections`. -/
def summaryBudget (sourceLen : ℕ) : ℕ :=
  if sourceLen < 360 then max 110 (3 * sourceLen / 5) else max 140 (sourceLen / 2)

/-- `_render_summary_sections`. -/
def renderSummarySections (summary : String) (points keyTerms sensitiveFacts : List String)
    (sourceLen : ℕ) : String :=
  let compactMode := sourceLen < 720 ∧ sensitiveFacts = []
  let pointsCap := if sourceLen < 720 ∧ sensitiveFacts = [] then 2 else 3
  let points := (dedupeSummaryPoints summary points).take pointsCap
  let showKeywords := keyTerms ≠ [] ∧ ¬ compactMode ∧ 900 ≤ sourceLen
  renderLoop keyTerms sensitiveFacts (summaryBudget sourceLen)
    (points.length + summary.length + 3) summary points showKeywords

/-! ## Claim C8 -/

theorem pyRstripChars_length_le (bad l : List Char) :
    (pyRstripChars bad l).length ≤ l.length := by
  simp only [pyRstripChars, List.length_reverse]
  have h1 := (l.reverse.dropWhile_sublist fun c => decide (c ∈ bad)).length_le
  simpa using h1

theorem pyStripList_length_le (l : List Char) : (pyStripList l).length ≤ l.length := by
  simp only [pyStripList, List.length_reverse]
  have h1 := (l.dropWhile_sublist pyWsChar).length_le
  have h2 := ((l.dropWhile pyWsChar).reverse.dropWhile_sublist pyWsChar).length_le
  simp at h2
  omega

theorem shrinkCutStage_length (value : List Char) (mc : ℕ) :
    (shrinkCutStage value mc).length ≤ mc := by
  simp only [shrinkCutStage]
  split
  · simp only [List.length_take]
    omega
  · simp only [List.length_take]
    omega

theorem shrinkCleanStage_length (value : List Char) {mc : ℕ} (h : 12 ≤ mc) :
    (shrinkCleanStage value mc).length ≤ mc := by
  simp only [shrinkCleanStage]
  split
  · refine le_trans (pyStripList_length_le _) ?_
    simp only [List.length_take]
    omega
  · exact le_trans (pyRstripChars_length_le _ _) (shrinkCutStage_length value mc)

theorem shrinkClause_length (t : String) {mc : ℕ} (ae : Bool) (h : 12 ≤ mc) :
    (shrinkClause t mc ae).length ≤ mc + 1 := by
  simp only [shrinkClause]
  split
  · rename_i hle
    rw [string_mk_length]
    omega
  · rw [string_mk_length, List.length_append]
    have h1 := shrinkCleanStage_length (pyStripChars shrinkStripSet (collapseWs t.data)) h
    split
    · simp only [List.length_cons, List.length_nil]
      omega
    · simp only [List.length_nil]
      omega

theorem mem_dropWhile_of_neg {p : Char → Bool} {c : Char} (hw : p c = false) :
    ∀ {l : List Char}, c ∈ l → c ∈ l.dropWhile p := by
  intro l
  induction l with
  | nil => intro h; cases h
  | cons a rest ih =>
      intro h
      rw [List.dropWhile_cons]
      split
      · rename_i hpa
        rcases List.mem_cons.mp h with rfl | h2
        · rw [hpa] at hw; cases hw
        · exact ih h2
      · exact h

theorem pyStripList_ne_nil {l : List Char} {c : Char} (hc : c ∈ l)
    (hw : pyWsChar c = false) : pyStripList l ≠ [] := by
  intro hempty
  simp only [pyStripList] at hempty
  rw [List.reverse_eq_nil_iff, List.dropWhile_eq_nil_iff] at hempty
  have h1 : c ∈ l.dropWhile pyWsChar := mem_dropWhile_of_neg hw hc
  have h2 : c ∈ (l.dropWhile pyWsChar).reverse := List.mem_reverse.mpr h1
  have := hempty c h2
  rw [hw] at this
  cases this

theorem mem_joinSep_head {c : Char} {w : List Char} (sep : List Char)
    (hw : c ∈ w) : ∀ (ws : List (List Char)), c ∈ joinSep sep (w :: ws) := by
  intro ws
  cases ws with
  | nil => exact hw
  | cons r t =>
      show c ∈ w ++ sep ++ joinSep sep (r :: t)
      exact List.mem_append_left _ (List.mem_append_left _ hw)

theorem memo_char_ne_ws : pyWsChar (Char.ofNat 0x1F4DD) = false := by decide

theorem summarySafeFallback_spec (summary : String) {budget : ℕ} (hb : 110 ≤ budget) :
    (summarySafeFallback summary budget).length ≤ budget ∧
      0 < (summarySafeFallback summary budget).length := by
  simp only [summarySafeFallback]
  constructor
  · rw [string_mk_length]
    have h1 := pyStripList_length_le ("📝 خلاصه\n" ++
      shrinkClause summary (max 72 (min 150 (11 * budget / 20))) true).data
    have h2 : ("📝 خلاصه\n" ++
        shrinkClause summary (max 72 (min 150 (11 * budget / 20))) true).data.length =
        8 + (shrinkClause summary (max 72 (min 150 (11 * budget / 20))) true).length := by
      cases hs : shrinkClause summary (max 72 (min 150 (11 * budget / 20))) true with
      | mk d =>
          show ("📝 خلاصه\n".data ++ d).length = _
          rw [List.length_append]
          have : "📝 خلاصه\n".data.length = 8 := by decide
          rw [this]
          rfl
    have h3 : (shrinkClause summary (max 72 (min 150 (11 * budget / 20))) true).length ≤
        max 72 (min 150 (11 * budget / 20)) + 1 :=
      shrinkClause_length summary true (by omega)
    have h4 : 20 * (11 * budget / 20) ≤ 11 * budget := by
      have := Nat.div_mul_le_self (11 * budget) 20
      omega
    omega
  · rw [string_mk_length]
    have hmem : Char.ofNat 0x1F4DD ∈ ("📝 خلاصه\n" ++
        shrinkClause summary (max 72 (min 150 (11 * budget / 20))) true).data := by
      cases hs : shrinkClause summary (max 72 (min 150 (11 * budget / 20))) true with
      | mk d =>
          show Char.ofNat 0x1F4DD ∈ "📝 خلاصه\n".data ++ d
          apply List.mem_append_left
          decide
    have := pyStripList_ne_nil hmem memo_char_ne_ws
    cases hres : pyStripList ("📝 خلاصه\n" ++
        shrinkClause summary (max 72 (min 150 (11 * budget / 20))) true).data with
    | nil => exact absurd hres this
    | cons a t => simp

theorem renderBody_pos (summary : String) (points sensitiveFacts keyTerms : List String)
    (showKeywords : Bool) :
    0 < (pyStripStr (joinNl
      (summaryBodyLines summary points sensitiveFacts keyTerms showKeywords))).length := by
  have hmem : Char.ofNat 0x1F4DD ∈ (joinNl
      (summaryBodyLines summary points sensitiveFacts keyTerms showKeywords)).data := by
    simp only [summaryBodyLines, joinNl]
    show Char.ofNat 0x1F4DD ∈ joinSep ['\n'] (List.map String.data ("📝 خلاصه" :: _))
    rw [List.map_cons]
    exact mem_joinSep_head _ (by decide) _
  have hne := pyStripList_ne_nil hmem memo_char_ne_ws
  show 0 < (⟨pyStripList _⟩ : String).length
  rw [string_mk_length]
  cases hres : pyStripList (joinNl
      (summaryBodyLines summary points sensitiveFacts keyTerms showKeywords)).data with
  | nil => exact absurd hres hne
  | cons a t => simp

theorem renderLoop_spec (keyTerms sensitiveFacts : List String) {budget : ℕ}
    (hb : 110 ≤ budget) :
    ∀ (fuel : ℕ) (summary : String) (points : List String) (showKeywords : Bool),
      (renderLoop keyTerms sensitiveFacts budget fuel summary points showKeywords).length ≤
          budget ∧
        0 < (renderLoop keyTerms sensitiveFacts budget fuel summary points
          showKeywords).length := by
  intro fuel
  induction fuel with
  | zero =>
      intro summary points showKeywords
      exact summarySafeFallback_spec summary hb
  | succ fuel ih =>
      intro summary points showKeywords
      simp only [renderLoop]
      split
      · rename_i hle
        exact ⟨hle, renderBody_pos summary points sensitiveFacts keyTerms showKeywords⟩
      · split
        · exact ih summary points false
        · split
          · exact ih summary points.dropLast showKeywords
          · split
            · exact summarySafeFallback_spec summary hb
            · exact ih _ points showKeywords

theorem summaryBudget_ge (sourceLen : ℕ) : 110 ≤ summaryBudget sourceLen := by
  simp only [summaryBudget]
  split <;> omega

theorem summaryBudget_le (sourceLen : ℕ) :
    summaryBudget sourceLen ≤ max 140 (3 * sourceLen / 5) := by
  simp only [summaryBudget]
  split
  · omega
  · have h1 : sourceLen / 2 = 3 * sourceLen / 6 := by
      rw [show (6 : ℕ) = 3 * 2 from rfl, Nat.mul_div_mul_left _ _ (by norm_num)]
    have h2 : 3 * sourceLen / 6 ≤ 3 * sourceLen / 5 :=
      Nat.div_le_div_left (by norm_num) (by norm_num)
    omega

def aas : String := ⟨List.replicate 200 'a'⟩

set_option maxHeartbeats 2000000 in
set_option maxRecDepth 4000 in
/-- C8 (counterexample): on a single unsplittable 200-character sentence the
summarizer takes the single-sentence early path and duplicates the shrunk
sentence into both the summary and the key-point bullet, producing 367
characters — far above the ~60% bound (120) and any fixed floor up to 150. -/
theorem fc_c8_counterexample :
    (extractiveSummaryEarly aas).map String.length = some 367 ∧
      max 150 (3 * 200 / 5) < 367 := by
  constructor
  · with_unfolding_all decide
  · decide

/-- C8 (amended): the generic render path (`_render_summary_sections`) always
returns a non-empty string of length at most its budget
(`max(110, int(0.60*len))` for short sources, `max(140, int(0.50*len))`
otherwise, both bounded by `max 140 (int(0.60*len))`); the single-sentence,
unsplittable-input and scam-template early paths are exempt from that bound
(see the counterexample). -/
theorem fc_c8_amended (summary : String) (points keyTerms sensitiveFacts : List String)
    (sourceLen : ℕ) :
    (renderSummarySections summary points keyTerms sensitiveFacts sourceLen).length ≤
        summaryBudget sourceLen ∧
      0 < (renderSummarySections summary points keyTerms sensitiveFacts sourceLen).length ∧
      summaryBudget sourceLen ≤ max 140 (3 * sourceLen / 5) := by
  refine ⟨?_, ?_, summaryBudget_le sourceLen⟩
  · simp only [renderSummarySections]
    exact (renderLoop_spec keyTerms sensitiveFacts (summaryBudget_ge sourceLen) _ _ _ _).1
  · simp only [renderSummarySections]
    exact (renderLoop_spec keyTerms sensitiveFacts (summaryBudget_ge sourceLen) _ _ _ _).2

/-! ## Candidate ranking in `run_news_factcheck` (lines 2156–2233)

The claim-signature list is derived deterministically upstream (from the
claim, its keyword digest and the optional AI translation); the ranking stage
is parametrised over it.  The dedup key expression inside `run_news_factcheck`
is textually identical to the one of `_merge_news_items`, so `mergeKey` is
reused. -/

structure RankedItem where
  item : NewsItem
  relevance : ℚ
  rankScore : ℚ
  ageDays : ℚ
  isRecent : Bool
  deriving DecidableEq

/-- `max(_text_similarity(sig, evidence_text) for sig in claim_signatures)`. -/
def claimRelevance (sigs : List String) (evidenceText : String) : ℚ :=
  match sigs with
  | [] => 0
  | s :: rest =>
      (rest.map fun sg => textSimilarity sg evidenceText).foldl max
        (textSimilarity s evidenceText)

/-- The strict first pass of the candidate loop: relevance floor `0.12` and
the recency rule (old items need relevance at least `0.33`). -/
def pass1Accept (now recentCutoff : ℤ) (sigs : List String) (it : NewsItem) :
    Option RankedItem :=
  let relevance := claimRelevance sigs (combinedText it)
  if relevance < 12/100 then none
  else
    let publishedTs := newsItemTimestamp it
    let ageDays : ℚ :=
      if 0 < publishedTs then max 0 (((now - publishedTs : ℤ) : ℚ) / 86400) else 0
    let freshness : ℚ := 1 / (1 + ageDays / 14)
    if 0 < publishedTs ∧ publishedTs < recentCutoff ∧ relevance < 33/100 then none
    else
      some ⟨{ it with relevance := some relevance }, relevance,
        82/100 * relevance + 18/100 * freshness, pyRound2 ageDays,
        if 0 < publishedTs then decide (recentCutoff ≤ publishedTs) else false⟩

/-- The relaxed second pass: floor `0.10`, no recency cutoff, freshness decay
constant `18`, rank weights `0.86/0.14`. -/
def pass2Accept (now : ℤ) (sigs : List String) (recentCutoff : ℤ) (it : NewsItem) :
    Option RankedItem :=
  let relevance := claimRelevance sigs (combinedText it)
  if relevance < 10/100 then none
  else
    let publishedTs := newsItemTimestamp it
    let ageDays : ℚ :=
      if 0 < publishedTs then max 0 (((now - publishedTs : ℤ) : ℚ) / 86400) else 0
    let freshness : ℚ := 1 / (1 + ageDays / 18)
    some ⟨{ it with relevance := some relevance }, relevance,
      86/100 * relevance + 14/100 * freshness, pyRound2 ageDays,
      if 0 < publishedTs then decide (recentCutoff ≤ publishedTs) else false⟩

def pass1Step (now recentCutoff : ℤ) (sigs : List String)
    (acc : List RankedItem × List String) (it : NewsItem) :
    List RankedItem × List String :=
  let key := mergeKey it
  if key = "" ∨ key ∈ acc.2 then acc
  else
    match pass1Accept now recentCutoff sigs it with
    | none => acc
    | some r => (acc.1 ++ [r], acc.2 ++ [key])

/-- First pass over the candidate pool with the `seen` key set. -/
def pass1Fold (now recentCutoff : ℤ) (sigs : List String) (pool : List NewsItem) :
    List RankedItem × List String :=
  pool.foldl (pass1Step now recentCutoff sigs) ([], [])

def pass2Step (now recentCutoff : ℤ) (sigs : List String) (localLimit : ℕ)
    (acc : List RankedItem × List String × Bool) (it : NewsItem) :
    List RankedItem × List String × Bool :=
  if acc.2.2 then acc
  else
    let key := mergeKey it
    if key = "" ∨ key ∈ acc.2.1 then acc
    else
      match pass2Accept now sigs recentCutoff it with
      | none => acc
      | some r =>
          (acc.1 ++ [r], acc.2.1 ++ [key],
            decide (localLimit ≤ acc.1.length + 1))

/-- Second pass, sharing `seen` with the first and stopping (`break`) once
`local_limit` entries have accumulated. -/
def pass2Fold (now recentCutoff : ℤ) (sigs : List String) (localLimit : ℕ)
    (pool : List NewsItem) (st : List RankedItem × List String × Bool) :
    List RankedItem × List String × Bool :=
  pool.foldl (pass2Step now recentCutoff sigs localLimit) st

/-- Python's stable descending sort order on
`(rank_score, published_ts or fetched_at or 0)`. -/
def rankGE (x y : RankedItem) : Prop :=
  y.rankScore < x.rankScore ∨
    (y.rankScore = x.rankScore ∧ newsItemTimestamp y.item ≤ newsItemTimestamp x.item)

instance : DecidableRel rankGE := fun x y =>
  inferInstanceAs (Decidable (_ ∨ _))

instance : IsTotal RankedItem rankGE where
  total x y := by
    rcases lt_trichotomy x.rankScore y.rankScore with h | h | h
    · exact Or.inr (Or.inl h)
    · rcases le_total (newsItemTimestamp y.item) (newsItemTimestamp x.item) with h2 | h2
      · exact Or.inl (Or.inr ⟨h.symm, h2⟩)
      · exact Or.inr (Or.inr ⟨h, h2⟩)
    · exact Or.inl (Or.inl h)

instance : IsTrans RankedItem rankGE where
  trans x y z hxy hyz := by
    rcases hxy with h1 | ⟨h1, h1t⟩ <;> rcases hyz with h2 | ⟨h2, h2t⟩
    · exact Or.inl (lt_trans h2 h1)
    · exact Or.inl (h2 ▸ h1)
    · exact Or.inl (lt_of_lt_of_le h2 (le_of_eq h1))
    · exact Or.inr ⟨h2.trans h1, le_trans h2t h1t⟩

/-- The unsorted `ranked` list of `run_news_factcheck`: strict pass, then the
relaxed backup pass when fewer than `max(8, 2*mode_evidence_limit)` survive. -/
def rankedPre (now : ℤ) (sigs : List String) (modeEvidenceLimit localLimit : ℕ)
    (pool : List NewsItem) : List RankedItem :=
  let recentCutoff := now - 120 * 86400
  let p1 := pass1Fold now recentCutoff sigs pool
  let needFloor := max 8 (modeEvidenceLimit * 2)
  if p1.1.length < needFloor then
    (pass2Fold now recentCutoff sigs localLimit pool
      (p1.1, p1.2, decide (localLimit ≤ p1.1.length))).1
  else p1.1

/-- The ranking stage of `run_news_factcheck`: the two collection passes
followed by the stable descending sort (Python's stable `sort` with
`reverse=True` is `List.insertionSort` on the reflexive descending order). -/
def rankCandidates (now : ℤ) (sigs : List String) (modeEvidenceLimit localLimit : ℕ)
    (pool : List NewsItem) : List RankedItem :=
  List.insertionSort rankGE (rankedPre now sigs modeEvidenceLimit localLimit pool)

/-- The selection and verdict downstream of the ranking
(`selected = ranked[:max(2*limit, 12)]`, `_score_factcheck(claim,
selected[:limit], {})` on the no-AI path). -/
noncomputable def rankVerdict (claim : String) (now : ℤ) (sigs : List String)
    (modeEvidenceLimit localLimit : ℕ) (pool : List NewsItem) : String :=
  (scoreFactcheck claim
    ((((rankCandidates now sigs modeEvidenceLimit localLimit pool).take
        (max (modeEvidenceLimit * 2) 12)).take modeEvidenceLimit).map fun r => r.item)
    (fun i => none) now).verdict

/-- The dedup key is never empty: the fallback contains the separator bar. -/
theorem mergeKey_ne_empty (it : NewsItem) : mergeKey it ≠ "" := by
  unfold mergeKey
  split
  · assumption
  · intro h
    have hl := congrArg String.length h
    rw [string_length_append, string_length_append] at hl
    simp only [String.length, List.length_cons, List.length_nil] at hl
    omega

/-! ## C10: permutation invariance of the candidate ranking -/


theorem pass1Fold_go_eq (now rc : ℤ) (sigs : List String) :
    ∀ (pool : List NewsItem) (r0 : List RankedItem) (s0 : List String),
      (∀ it ∈ pool, mergeKey it ∉ s0) →
      pool.Pairwise (fun a b => mergeKey a ≠ mergeKey b) →
      pool.foldl (pass1Step now rc sigs) (r0, s0) =
        (r0 ++ pool.filterMap (pass1Accept now rc sigs),
         s0 ++ (pool.filter fun it =>
            (pass1Accept now rc sigs it).isSome).map mergeKey) := by
  intro pool
  induction pool with
  | nil => intro r0 s0 _ _; simp
  | cons it rest ih =>
      intro r0 s0 hs hp
      have hnot : ¬(mergeKey it = "" ∨ mergeKey it ∈ s0) := by
        rintro (h | h)
        · exact mergeKey_ne_empty it h
        · exact hs it (List.mem_cons_self it rest) h
      rw [List.foldl_cons]
      have hstep : pass1Step now rc sigs (r0, s0) it =
          match pass1Accept now rc sigs it with
          | none => (r0, s0)
          | some r => (r0 ++ [r], s0 ++ [mergeKey it]) := by
        simp only [pass1Step, hnot, if_neg, not_false_iff]
        try rfl
      rcases hp2 : List.pairwise_cons.mp hp with ⟨hhead, htail⟩
      cases hacc : pass1Accept now rc sigs it with
      | none =>
          rw [hstep, hacc]
          rw [List.filterMap_cons_none hacc,
            List.filter_cons_of_neg (by simp [hacc])]
          exact ih r0 s0 (fun x hx => hs x (List.mem_cons_of_mem _ hx)) htail
      | some r =>
          rw [hstep, hacc]
          rw [List.filterMap_cons_some hacc,
            List.filter_cons_of_pos (by simp [hacc])]
          have hs' : ∀ x ∈ rest, mergeKey x ∉ s0 ++ [mergeKey it] := by
            intro x hx
            simp only [List.mem_append, List.mem_singleton]
            rintro (h | h)
            · exact hs x (List.mem_cons_of_mem _ hx) h
            · exact hhead x hx h.symm
          rw [ih (r0 ++ [r]) (s0 ++ [mergeKey it]) hs' htail]
          simp [List.append_assoc]

theorem pass2Fold_go_eq (now rc : ℤ) (sigs : List String) (localLimit : ℕ)
    (s0 : List String) :
    ∀ (pool : List NewsItem) (r0 : List RankedItem) (s1 : List String),
      (∀ it ∈ pool, (mergeKey it ∈ s1 ↔ mergeKey it ∈ s0)) →
      pool.Pairwise (fun a b => mergeKey a ≠ mergeKey b) →
      r0.length + pool.length < localLimit →
      pool.foldl (pass2Step now rc sigs localLimit) (r0, s1, false) =
        (r0 ++ pool.filterMap (fun it =>
            if mergeKey it ∈ s0 then none else pass2Accept now sigs rc it),
          s1 ++ (pool.filter fun it =>
            !(decide (mergeKey it ∈ s0)) &&
              (pass2Accept now sigs rc it).isSome).map mergeKey,
          false) := by
  intro pool
  induction pool with
  | nil => intro r0 s1 _ _ _; simp
  | cons it rest ih =>
      intro r0 s1 hs hp hlen
      rcases List.pairwise_cons.mp hp with ⟨hhead, htail⟩
      rw [List.foldl_cons]
      by_cases hmem : mergeKey it ∈ s0
      · have hmem1 : mergeKey it ∈ s1 := (hs it (List.mem_cons_self it rest)).mpr hmem
        have hstep : pass2Step now rc sigs localLimit (r0, s1, false) it = (r0, s1, false) := by
          simp only [pass2Step]
          rw [if_neg (by simp), if_pos (Or.inr hmem1)]
        rw [hstep, List.filterMap_cons_none (by simp [hmem]),
          List.filter_cons_of_neg (by simp [hmem])]
        exact ih r0 s1 (fun x hx => hs x (List.mem_cons_of_mem _ hx)) htail
          (by simp only [List.length_cons] at hlen; omega)
      · have hmem1 : mergeKey it ∉ s1 := fun h => hmem ((hs it (List.mem_cons_self it rest)).mp h)
        have hcond : ¬(mergeKey it = "" ∨ mergeKey it ∈ s1) := by
          rintro (h | h)
          · exact mergeKey_ne_empty it h
          · exact hmem1 h
        cases hacc : pass2Accept now sigs rc it with
        | none =>
            have hstep : pass2Step now rc sigs localLimit (r0, s1, false) it = (r0, s1, false) := by
              simp only [pass2Step]
              rw [if_neg (by simp), if_neg hcond, hacc]
            rw [hstep, List.filterMap_cons_none (by simp [hmem, hacc]),
              List.filter_cons_of_neg (by simp [hacc])]
            exact ih r0 s1 (fun x hx => hs x (List.mem_cons_of_mem _ hx)) htail
              (by simp only [List.length_cons] at hlen; omega)
        | some r =>
            have hstop : decide (localLimit ≤ r0.length + 1) = false := by
              have : r0.length + 1 < localLimit := by
                simp only [List.length_cons] at hlen; omega
              simp only [decide_eq_false_iff_not]
              omega
            have hstep : pass2Step now rc sigs localLimit (r0, s1, false) it =
                (r0 ++ [r], s1 ++ [mergeKey it], false) := by
              simp only [pass2Step]
              rw [if_neg (by simp), if_neg hcond, hacc]
              simp only [hstop]
            rw [hstep]
            have hs' : ∀ x ∈ rest, (mergeKey x ∈ s1 ++ [mergeKey it] ↔ mergeKey x ∈ s0) := by
              intro x hx
              rw [List.mem_append, List.mem_singleton]
              constructor
              · rintro (h | h)
                · exact (hs x (List.mem_cons_of_mem _ hx)).mp h
                · exact absurd h.symm (hhead x hx)
              · intro h
                exact Or.inl ((hs x (List.mem_cons_of_mem _ hx)).mpr h)
            rw [ih (r0 ++ [r]) (s1 ++ [mergeKey it]) hs' htail
              (by simp only [List.length_append, List.length_cons,
                List.length_nil] at hlen ⊢; omega)]
            simp [List.filterMap_cons, List.filter_cons, hmem, hacc,
              List.append_assoc]

theorem pass1Fold_eq (now rc : ℤ) (sigs : List String) (pool : List NewsItem)
    (hp : pool.Pairwise fun a b => mergeKey a ≠ mergeKey b) :
    pass1Fold now rc sigs pool =
      (pool.filterMap (pass1Accept now rc sigs),
        (pool.filter fun it => (pass1Accept now rc sigs it).isSome).map mergeKey) := by
  unfold pass1Fold
  rw [pass1Fold_go_eq now rc sigs pool [] [] (by simp) hp]
  simp

/-- Key distinctness is preserved under permutation (the relation is
symmetric). -/
theorem keysPairwise_perm {pool1 pool2 : List NewsItem} (hperm : pool1.Perm pool2)
    (hp : pool1.Pairwise fun a b => mergeKey a ≠ mergeKey b) :
    pool2.Pairwise fun a b => mergeKey a ≠ mergeKey b :=
  (hperm.pairwise_iff (by intro a b h heq; exact h heq.symm)).mp hp

theorem rankedPre_perm (now : ℤ) (sigs : List String) (lim localLimit : ℕ)
    (pool1 pool2 : List NewsItem) (hperm : pool1.Perm pool2)
    (hkeys : pool1.Pairwise fun a b => mergeKey a ≠ mergeKey b)
    (hlen : pool1.length + max 8 (lim * 2) ≤ localLimit) :
    (rankedPre now sigs lim localLimit pool1).Perm
      (rankedPre now sigs lim localLimit pool2) := by
  have hkeys2 := keysPairwise_perm hperm hkeys
  simp only [rankedPre]
  rw [pass1Fold_eq _ _ _ _ hkeys, pass1Fold_eq _ _ _ _ hkeys2]
  have hfm : (pool1.filterMap (pass1Accept now (now - 120 * 86400) sigs)).Perm
      (pool2.filterMap (pass1Accept now (now - 120 * 86400) sigs)) :=
    hperm.filterMap _
  have hlen12 := hfm.length_eq
  by_cases hbr : (pool1.filterMap (pass1Accept now (now - 120 * 86400) sigs)).length <
      max 8 (lim * 2)
  · rw [if_pos hbr, if_pos (hlen12 ▸ hbr)]
    have hflag1 : decide (localLimit ≤
        (pool1.filterMap (pass1Accept now (now - 120 * 86400) sigs)).length) = false := by
      have h8 : (0:ℕ) < max 8 (lim * 2) := lt_of_lt_of_le (by omega) (le_max_left _ _)
      have hle := List.length_filterMap_le (pass1Accept now (now - 120 * 86400) sigs) pool1
      simp only [decide_eq_false_iff_not]
      omega
    have hflag2 : decide (localLimit ≤
        (pool2.filterMap (pass1Accept now (now - 120 * 86400) sigs)).length) = false := by
      rw [← hlen12]; exact hflag1
    rw [hflag1, hflag2]
    have hseenperm : ((pool1.filter fun it =>
          (pass1Accept now (now - 120 * 86400) sigs it).isSome).map mergeKey).Perm
        ((pool2.filter fun it =>
          (pass1Accept now (now - 120 * 86400) sigs it).isSome).map mergeKey) :=
      (hperm.filter _).map _
    have hrw1 := pass2Fold_go_eq now (now - 120 * 86400) sigs localLimit
      ((pool1.filter fun it =>
        (pass1Accept now (now - 120 * 86400) sigs it).isSome).map mergeKey)
      pool1 (pool1.filterMap (pass1Accept now (now - 120 * 86400) sigs)) _
      (fun it hit => Iff.rfl) hkeys
      (by
        have hle := List.length_filterMap_le (pass1Accept now (now - 120 * 86400) sigs) pool1
        omega)
    have hrw2 := pass2Fold_go_eq now (now - 120 * 86400) sigs localLimit
      ((pool1.filter fun it =>
        (pass1Accept now (now - 120 * 86400) sigs it).isSome).map mergeKey)
      pool2 (pool2.filterMap (pass1Accept now (now - 120 * 86400) sigs))
      ((pool2.filter fun it =>
        (pass1Accept now (now - 120 * 86400) sigs it).isSome).map mergeKey)
      (fun it hit => hseenperm.symm.mem_iff) hkeys2
      (by
        have hle := List.length_filterMap_le (pass1Accept now (now - 120 * 86400) sigs) pool2
        have := hperm.length_eq
        omega)
    unfold pass2Fold
    rw [hrw1, hrw2]
    exact hfm.append (hperm.filterMap _)
  · rw [if_neg hbr, if_neg (hlen12 ▸ hbr)]
    exact hfm

/-- Strict version of the descending sort order. -/
def rankGT (x y : RankedItem) : Prop :=
  y.rankScore < x.rankScore ∨
    (y.rankScore = x.rankScore ∧ newsItemTimestamp y.item < newsItemTimestamp x.item)

theorem rankGT_asymm (x y : RankedItem) (h1 : rankGT x y) (h2 : rankGT y x) : False := by
  rcases h1 with h1 | ⟨h1, h1t⟩ <;> rcases h2 with h2 | ⟨h2, h2t⟩
  · exact absurd h1 (not_lt_of_lt h2)
  · exact absurd h1 (h2 ▸ lt_irrefl _)
  · exact absurd h2 (h1 ▸ lt_irrefl _)
  · exact absurd h1t (not_lt_of_lt h2t)

theorem sorted_key_distinct_eq (l1 l2 : List RankedItem)
    (hperm : l1.Perm l2) (hs1 : l1.Sorted rankGE) (hs2 : l2.Sorted rankGE)
    (hd : l1.Pairwise fun a b =>
      (a.rankScore, newsItemTimestamp a.item) ≠ (b.rankScore, newsItemTimestamp b.item)) :
    l1 = l2 := by
  have hd2 : l2.Pairwise fun a b =>
      (a.rankScore, newsItemTimestamp a.item) ≠ (b.rankScore, newsItemTimestamp b.item) :=
    (hperm.pairwise_iff (by intro a b h heq; exact h heq.symm)).mp hd
  have hstrict : ∀ a b : RankedItem, rankGE a b →
      (a.rankScore, newsItemTimestamp a.item) ≠ (b.rankScore, newsItemTimestamp b.item) →
      rankGT a b := by
    intro a b hge hne
    rcases hge with h | ⟨heq, hle⟩
    · exact Or.inl h
    · refine Or.inr ⟨heq, lt_of_le_of_ne hle fun hts => hne ?_⟩
      rw [Prod.mk.injEq]
      exact ⟨heq.symm, hts.symm⟩
  have hgt1 : l1.Pairwise rankGT := (hs1.and hd).imp fun h => hstrict _ _ h.1 h.2
  have hgt2 : l2.Pairwise rankGT := (hs2.and hd2).imp fun h => hstrict _ _ h.1 h.2
  haveI : IsAntisymm RankedItem rankGT :=
    ⟨fun a b h1 h2 => (rankGT_asymm a b h1 h2).elim⟩
  exact List.eq_of_perm_of_sorted hperm hgt1 hgt2

/-- C10 (amended): the ranking and the verdict are invariant under
permutation of the candidate pool provided the dedup keys are pairwise
distinct, the pool is small enough that the relaxed-pass `break` cannot
trigger, and the sort keys (`rank_score`, timestamp) of the ranked output are
pairwise distinct; with tied sort keys the stable sort preserves arrival
order, as the counterexample shows. -/
theorem fc_c10_amended (claim : String) (now : ℤ) (sigs : List String)
    (lim localLimit : ℕ) (pool1 pool2 : List NewsItem)
    (hperm : pool1.Perm pool2)
    (hkeys : pool1.Pairwise fun a b => mergeKey a ≠ mergeKey b)
    (hlen : pool1.length + max 8 (lim * 2) ≤ localLimit)
    (hsort : (rankCandidates now sigs lim localLimit pool1).Pairwise fun a b =>
      (a.rankScore, newsItemTimestamp a.item) ≠ (b.rankScore, newsItemTimestamp b.item)) :
    rankCandidates now sigs lim localLimit pool1 =
        rankCandidates now sigs lim localLimit pool2 ∧
      rankVerdict claim now sigs lim localLimit pool1 =
        rankVerdict claim now sigs lim localLimit pool2 := by
  have hpre := rankedPre_perm now sigs lim localLimit pool1 pool2 hperm hkeys hlen
  have hcperm : (rankCandidates now sigs lim localLimit pool1).Perm
      (rankCandidates now sigs lim localLimit pool2) := by
    unfold rankCandidates
    exact ((List.perm_insertionSort rankGE _).trans hpre).trans
      (List.perm_insertionSort rankGE _).symm
  have heq : rankCandidates now sigs lim localLimit pool1 =
      rankCandidates now sigs lim localLimit pool2 :=
    sorted_key_distinct_eq _ _ hcperm
      (List.sorted_insertionSort rankGE _) (List.sorted_insertionSort rankGE _) hsort
  exact ⟨heq, by unfold rankVerdict; rw [heq]⟩

def c10A : NewsItem := ⟨"s1", "high", "ab", "", "l1", "", 1000, 0, none⟩
def c10B : NewsItem := ⟨"s2", "high", "ab", "", "l2", "", 1000, 0, none⟩
def c10C : NewsItem := ⟨"s3", "high", "ab", "", "l3", "", 1000, 0, none⟩
def c10D : NewsItem := ⟨"s4", "high", "ab", "", "l4", "", 500, 0, none⟩


set_option maxHeartbeats 4000000 in
set_option maxRecDepth 8000 in
/-- C10 (counterexample): the final ranking is not a pure function of the
candidate set.  Two distinct candidates with identical sort keys
(`rank_score`, timestamp) keep their arrival order under Python's stable
sort, so swapping the arrival order changes the final ranked list. -/
theorem fc_c10_counterexample :
    rankCandidates 1000 ["ab"] 10 280 [c10A, c10B] ≠
    rankCandidates 1000 ["ab"] 10 280 [c10B, c10A] := by
  with_unfolding_all decide

set_option maxHeartbeats 4000000 in
set_option maxRecDepth 8000 in
/-- Witness for `fc_c10_amended`: a two-element pool with distinct dedup keys
and distinct sort keys, evaluated at both arrival orders. -/
theorem fc_c10_amended_witness :
    ([c10C, c10D] : List NewsItem).Perm [c10D, c10C] ∧
      ([c10C, c10D] : List NewsItem).Pairwise (fun a b => mergeKey a ≠ mergeKey b) ∧
      ([c10C, c10D] : List NewsItem).length + max 8 (10 * 2) ≤ 280 ∧
      (rankCandidates 1000 ["ab"] 10 280 [c10C, c10D]).Pairwise (fun a b =>
        (a.rankScore, newsItemTimestamp a.item) ≠
          (b.rankScore, newsItemTimestamp b.item)) ∧
      (rankCandidates 1000 ["ab"] 10 280 [c10C, c10D] =
          rankCandidates 1000 ["ab"] 10 280 [c10D, c10C] ∧
        rankVerdict "ab" 1000 ["ab"] 10 280 [c10C, c10D] =
          rankVerdict "ab" 1000 ["ab"] 10 280 [c10D, c10C]) := by
  have h1 : ([c10C, c10D] : List NewsItem).Perm [c10D, c10C] := by
    with_unfolding_all decide
  have h2 : ([c10C, c10D] : List NewsItem).Pairwise
      (fun a b => mergeKey a ≠ mergeKey b) := by
    with_unfolding_all decide
  have h3 : ([c10C, c10D] : List NewsItem).length + max 8 (10 * 2) ≤ 280 := by
    with_unfolding_all decide
  have h4 : (rankCandidates 1000 ["ab"] 10 280 [c10C, c10D]).Pairwise (fun a b =>
      (a.rankScore, newsItemTimestamp a.item) ≠
        (b.rankScore, newsItemTimestamp b.item)) := by
    with_unfolding_all decide
  exact ⟨h1, h2, h3, h4,
    fc_c10_amended "ab" 1000 ["ab"] 10 280 [c10C, c10D] [c10D, c10C] h1 h2 h3 h4⟩



end Bot
